import Mathlib

/-!
Verification development for the Azure DevOps administrative batch scripts
of this repository: `app/main.py` (inactive-pipeline disabling),
`scripts/azdo-clean-project-teams.py` (team membership cleanup) and
`scripts/get_team_admin_emails.py` (release approval audit).

Each Python function the claims touch is shallowly embedded as an executable
Lean definition.  Network responses are supplied by oracle functions, the
outbound calls a run would issue are collected in explicit traces, and raised
exceptions are modelled with `Except` / `Option`.
-/

namespace AzDo

/-- HTTP method of an outbound request. -/
inductive Method where
  | GET
  | PUT
  | DELETE
  deriving DecidableEq, Repr

/-- A structured endpoint, standing for the URL a request is sent to. -/
inductive Endpoint where
  | projects
  | teams (projectId : String)
  | teamMemberships (teamId : String)
  | graphMembership (memberDescriptor teamDescriptor : String)
  | buildDefinitions (projectName : String)
  | buildsTop1 (projectName : String) (definitionId : Nat)
  | buildDefinition (projectName : String) (definitionId : Nat)
  | buildFolders (projectName : String)
  | releaseDefinitions (projectName : String)
  | releaseDefinition (projectName : String) (definitionId : Nat)
  deriving DecidableEq, Repr

/-- One outbound network request. -/
structure Call where
  method : Method
  endpoint : Endpoint
  deriving DecidableEq, Repr

/-- `true` exactly for the state-changing methods (`PUT`, `DELETE`). -/
def Call.stateChanging (c : Call) : Bool :=
  match c.method with
  | .GET => false
  | .PUT => true
  | .DELETE => true

/-- Structured log events, standing for the `print` / `logger` lines the
scripts emit.  `wouldAct` is the per-item dry-run line. -/
inductive LogEvent where
  | wouldAct (itemId : String)
  | removingUser (memberDescriptor : String)
  | skippingNonUser (memberDescriptor : String)
  | removedOk (memberDescriptor : String)
  | alreadyGone (memberDescriptor : String)
  | removeFailed (memberDescriptor : String) (detail : String)
  | foundProjects (n : Nat)
  | pipelineInactive (pipelineName : String)
  | inactiveCount (projectName : String) (n : Nat)
  | totalInactive (n : Nat)
  | disablingPipelines
  | creatingArchiveFolder (projectName : String)
  | disabledCount (n : Nat)
  | enforcing (envName defName projectName : String)
  | alreadyEnforced (envName defName projectName : String)
  | updatedDefinition (defName projectName : String)
  | updateFailed (defName projectName : String) (detail : String)
  | definitionFailed (projectName : String) (detail : String)
  | projectFailed (projectName : String) (detail : String)
  deriving DecidableEq, Repr

/-! ## Dry-run flag defaults (claim C3 area)

`app/main.py` and `scripts/azdo-clean-project-teams.py` both compute the
default of `--dry-run` as `str_to_bool(os.getenv("DRY_RUN", "True"))`;
`scripts/get_team_admin_emails.py` declares `--dry-run` with
`action="store_true"`, whose argparse semantics give `False` whenever the
flag is absent, with no environment variable consulted. -/

/-- Python's `str.lower()` (over the code points of the string). -/
def pyLower (s : String) : String :=
  String.mk (s.data.map Char.toLower)

/-- Python's `s.startswith(marker)`. -/
def pyStartsWith (s marker : String) : Bool :=
  marker.data.isPrefixOf s.data

namespace PipelineApp

/-- `str_to_bool` from `app/main.py`:
`value.lower() in ["true", "1", "t", "y", "yes"]`. -/
def str_to_bool (value : String) : Bool :=
  ["true", "1", "t", "y", "yes"].contains (pyLower value)

/-- Default of `--dry-run` in `app/main.py`: `env` is the value of the
`DRY_RUN` environment variable when set, `none` when unset. -/
def dryRunDefault (env : Option String) : Bool :=
  str_to_bool (env.getD "True")

end PipelineApp

namespace CleanTeams

/-- `str_to_bool` from `scripts/azdo-clean-project-teams.py`:
`value.lower() in ("true", "1", "yes", "y")`. -/
def str_to_bool (value : String) : Bool :=
  ["true", "1", "yes", "y"].contains (pyLower value)

/-- Default of `--dry-run` in `scripts/azdo-clean-project-teams.py`. -/
def dryRunDefault (env : Option String) : Bool :=
  str_to_bool (env.getD "True")

end CleanTeams

namespace ReleaseAudit

/-- Value of `args.dry_run` in `scripts/get_team_admin_emails.py`: the option
is declared with `action="store_true"`, so its value is exactly "the flag was
given on the command line"; no environment variable participates. -/
def dryRunValue (flagGiven : Bool) : Bool :=
  flagGiven

/-- Default of `--dry-run` in `scripts/get_team_admin_emails.py`: the value
when the flag is absent from the command line. -/
def dryRunDefault : Bool :=
  dryRunValue false

end ReleaseAudit

/-! ## Pagination (claim C4 area) -/

namespace CleanTeams

/-- The JSON body of one listing response: a `value` array and an optional
`continuationToken` field. -/
structure PageResp (α : Type) where
  value : List α
  continuationToken : Option String
  deriving DecidableEq, Repr

/-- One HTTP listing response: status code, raw text, decoded body. -/
structure HttpResp (α : Type) where
  status : Nat
  text : String
  body : PageResp α
  deriving DecidableEq, Repr

/-- Python truthiness of the optional continuation token (`if token:`). -/
def tokenTruthy : Option String → Bool
  | none => false
  | some t => t != ""

/-- The `while url:` pagination loop shared verbatim by `get_projects`,
`get_teams` and `get_team_members` in `scripts/azdo-clean-project-teams.py`:
request (`mkCall` is the GET the iteration issues), fail on a non-200 status,
extend the accumulator with the page's `value`, rebuild the URL from the
continuation token when one is present and truthy, stop otherwise.  `srv tok`
is the response to the request carrying continuation token `tok` (`none` for
the initial URL).  `fuel` bounds the number of iterations so the embedding is
total: a `none` result means the loop did not finish within `fuel` pages. -/
def pagedList (mkCall : Call) (srv : Option String → HttpResp α) :
    Nat → Option String → List Call × Option (Except String (List α))
  | 0, _ => ([], none)
  | fuel + 1, tok =>
    let resp := srv tok
    if resp.status ≠ 200 then ([mkCall], some (.error resp.text))
    else
      match resp.body.continuationToken with
      | none => ([mkCall], some (.ok resp.body.value))
      | some t =>
        if t = "" then ([mkCall], some (.ok resp.body.value))
        else
          match pagedList mkCall srv fuel (some t) with
          | (cs, none) => (mkCall :: cs, none)
          | (cs, some (.error e)) => (mkCall :: cs, some (.error e))
          | (cs, some (.ok rest)) =>
            (mkCall :: cs, some (.ok (resp.body.value ++ rest)))

/-- `get_projects` from `scripts/azdo-clean-project-teams.py`. -/
def get_projects (srv : Option String → HttpResp α) (fuel : Nat) :
    List Call × Option (Except String (List α)) :=
  pagedList ⟨.GET, .projects⟩ srv fuel none

/-- `get_teams` from `scripts/azdo-clean-project-teams.py`; the oracle is
additionally keyed by the project id appearing in the URL. -/
def get_teams (srv : String → Option String → HttpResp α) (projectId : String)
    (fuel : Nat) : List Call × Option (Except String (List α)) :=
  pagedList ⟨.GET, .teams projectId⟩ (srv projectId) fuel none

/-- `get_team_members` from `scripts/azdo-clean-project-teams.py`; the oracle
is keyed by the team id appearing in the URL. -/
def get_team_members (srv : String → Option String → HttpResp α)
    (teamId : String) (fuel : Nat) :
    List Call × Option (Except String (List α)) :=
  pagedList ⟨.GET, .teamMemberships teamId⟩ (srv teamId) fuel none

/-- One team member record, as `get_team_members` returns it (only the
`memberDescriptor` field is consumed). -/
structure Member where
  memberDescriptor : String
  deriving DecidableEq, Repr

/-- One team record (fields `main` consumes). -/
structure Team where
  name : String
  id : String
  descriptor : String
  deriving DecidableEq, Repr

/-- One project record (fields `main` consumes). -/
structure Project where
  name : String
  id : String
  deriving DecidableEq, Repr

/-- Response to the membership DELETE request. -/
structure DeleteResp where
  status : Nat
  text : String
  deriving DecidableEq, Repr

/-- The server behind one `azdo-clean-project-teams.py` run: listing
responses keyed by continuation token (and parent id), and the DELETE
response keyed by member and team descriptor. -/
structure CTServer where
  projectsSrv : Option String → HttpResp Project
  teamsSrv : String → Option String → HttpResp Team
  membersSrv : String → Option String → HttpResp Member
  deleteSrv : String → String → DeleteResp

/-- `remove_member_from_team` from `scripts/azdo-clean-project-teams.py`.
With `dry_run` it only prints the would-be removal and returns.  Otherwise it
issues the DELETE and prints by status: 204 → removed, 404 → "not found or
already removed", anything else → failure with the response text; no status
raises, so the caller always continues with the next member. -/
def remove_member_from_team (delSrv : String → String → DeleteResp)
    (teamDescriptor memberDescriptor : String) (dryRun : Bool) :
    List Call × List LogEvent :=
  if dryRun then ([], [.wouldAct memberDescriptor])
  else
    let resp := delSrv memberDescriptor teamDescriptor
    let call : Call := ⟨.DELETE, .graphMembership memberDescriptor teamDescriptor⟩
    if resp.status = 204 then ([call], [.removedOk memberDescriptor])
    else if resp.status = 404 then ([call], [.alreadyGone memberDescriptor])
    else ([call], [.removeFailed memberDescriptor resp.text])

/-- `true` exactly on the failure log line of the remove step. -/
def isRemoveFailure : LogEvent → Bool
  | .removeFailed _ _ => true
  | _ => false

/-- The "human account" signature exactly as the claim words it (a
refinement definition following the spec, not the source): the identifier
contains an `@`, or carries the `aad.` federated/AD descriptor marker. -/
def humanSignatureSpec (s : String) : Bool :=
  s.data.contains '@' || pyStartsWith s "aad."

/-- The body of `main`'s innermost loop: members whose descriptor starts with
`"aad."` are removed (with the reason printed), every other member is skipped
with a "Skipping non-user (group or service)" line. -/
def processMember (delSrv : String → String → DeleteResp)
    (teamDescriptor : String) (dryRun : Bool) (m : Member) :
    List Call × List LogEvent :=
  if pyStartsWith m.memberDescriptor "aad." then
    let step := remove_member_from_team delSrv teamDescriptor
      m.memberDescriptor dryRun
    (step.1, .removingUser m.memberDescriptor :: step.2)
  else ([], [.skippingNonUser m.memberDescriptor])

/-- `main`'s loop over the members of one team. -/
def processMembers (delSrv : String → String → DeleteResp)
    (teamDescriptor : String) (dryRun : Bool) :
    List Member → List Call × List LogEvent
  | [] => ([], [])
  | m :: rest =>
    let s := processMember delSrv teamDescriptor dryRun m
    let r := processMembers delSrv teamDescriptor dryRun rest
    (s.1 ++ r.1, s.2 ++ r.2)

/-- `main`'s body for one team: list its members (an exception from
`get_team_members` propagates and aborts the run), then process each. -/
def processTeam (srv : CTServer) (fuel : Nat) (dryRun : Bool) (team : Team) :
    List Call × List LogEvent × Option (Except String Unit) :=
  let ml := get_team_members srv.membersSrv team.id fuel
  match ml.2 with
  | none => (ml.1, [], none)
  | some (.error e) => (ml.1, [], some (.error e))
  | some (.ok members) =>
    let r := processMembers srv.deleteSrv team.descriptor dryRun members
    (ml.1 ++ r.1, r.2, some (.ok ()))

/-- `main`'s loop over the teams of one project. -/
def processTeamList (srv : CTServer) (fuel : Nat) (dryRun : Bool) :
    List Team → List Call × List LogEvent × Option (Except String Unit)
  | [] => ([], [], some (.ok ()))
  | t :: rest =>
    let s := processTeam srv fuel dryRun t
    match s.2.2 with
    | some (.ok ()) =>
      let r := processTeamList srv fuel dryRun rest
      (s.1 ++ r.1, s.2.1 ++ r.2.1, r.2.2)
    | other => (s.1, s.2.1, other)

/-- `main`'s body for one project: list its teams (an exception propagates),
then process each team. -/
def processProject (srv : CTServer) (fuel : Nat) (dryRun : Bool)
    (p : Project) : List Call × List LogEvent × Option (Except String Unit) :=
  let tl := get_teams srv.teamsSrv p.id fuel
  match tl.2 with
  | none => (tl.1, [], none)
  | some (.error e) => (tl.1, [], some (.error e))
  | some (.ok teams) =>
    let r := processTeamList srv fuel dryRun teams
    (tl.1 ++ r.1, r.2.1, r.2.2)

/-- `main`'s loop over all projects. -/
def processProjectList (srv : CTServer) (fuel : Nat) (dryRun : Bool) :
    List Project → List Call × List LogEvent × Option (Except String Unit)
  | [] => ([], [], some (.ok ()))
  | p :: rest =>
    let s := processProject srv fuel dryRun p
    match s.2.2 with
    | some (.ok ()) =>
      let r := processProjectList srv fuel dryRun rest
      (s.1 ++ r.1, s.2.1 ++ r.2.1, r.2.2)
    | other => (s.1, s.2.1, other)

/-- `main` of `scripts/azdo-clean-project-teams.py` after argument handling:
fetch the projects, then the nested project → team → member traversal with
removals.  The result is the emitted calls, the outcome log lines, and
whether the run returned normally (`some (.ok ())`), raised a listing
exception (`some (.error _)`), or exceeded the page fuel (`none`). -/
def cleanTeamsRun (srv : CTServer) (fuel : Nat) (dryRun : Bool) :
    List Call × List LogEvent × Option (Except String Unit) :=
  let pl := get_projects srv.projectsSrv fuel
  match pl.2 with
  | none => (pl.1, [], none)
  | some (.error e) => (pl.1, [], some (.error e))
  | some (.ok projects) =>
    let r := processProjectList srv fuel dryRun projects
    (pl.1 ++ r.1, r.2.1, r.2.2)

/-- `Chains srv tok ps`: starting from the request with continuation token
`tok`, successive responses of `srv` form exactly the finite page sequence
`ps` — every response has status 200, every page but the last carries a
truthy continuation token leading to the next page, and the last page's token
is not truthy. -/
inductive Chains (srv : Option String → HttpResp α) :
    Option String → List (PageResp α) → Prop where
  | last (tok : Option String) (p : PageResp α) :
      (srv tok).status = 200 → (srv tok).body = p →
      tokenTruthy p.continuationToken = false →
      Chains srv tok [p]
  | step (tok : Option String) (p : PageResp α) (t : String)
      (ps : List (PageResp α)) :
      (srv tok).status = 200 → (srv tok).body = p →
      p.continuationToken = some t → t ≠ "" →
      Chains srv (some t) ps →
      Chains srv tok (p :: ps)

end CleanTeams

namespace PipelineApp

/-- `AzDoSession.get_projects` from `app/main.py`: a single GET of
`_apis/projects` (no continuation-token handling at all);
`raise_for_status=True` raises on a status of 400 or above, otherwise the
response's `value` field is returned. -/
def get_projects (srv : Option String → CleanTeams.HttpResp α) :
    Except String (List α) :=
  let resp := srv none
  if 400 ≤ resp.status then .error resp.text else .ok resp.body.value

/-- `AzDoSession.get_pipelines` from `app/main.py`: a single GET of
`{project}/_apis/build/definitions`, same shape as `get_projects`. -/
def get_pipelines (srv : String → Option String → CleanTeams.HttpResp α)
    (projectName : String) : Except String (List α) :=
  let resp := srv projectName none
  if 400 ≤ resp.status then .error resp.text else .ok resp.body.value

end PipelineApp

/-! ## Timestamps (claims C7 and C8 area)

`find_inactive_pipeline` in `app/main.py` parses
`pipeline["createdDate"][:19]` with `datetime.strptime(..., "%Y-%m-%dT%H:%M:%S")`
and compares the result against `datetime.now() - timedelta(days=threshold_days)`.
Python strings indexed by position are modelled as `List Char`. -/

namespace PipelineApp

/-- A wall-clock timestamp at whole-second precision: the fields
`datetime.strptime(_, "%Y-%m-%dT%H:%M:%S")` produces. -/
structure PyDateTime where
  year : Nat
  month : Nat
  day : Nat
  hour : Nat
  minute : Nat
  second : Nat
  deriving DecidableEq, Repr

/-- Python `datetime` comparison (`<`): lexicographic on the fields. -/
def dtLt (a b : PyDateTime) : Bool :=
  if a.year ≠ b.year then decide (a.year < b.year)
  else if a.month ≠ b.month then decide (a.month < b.month)
  else if a.day ≠ b.day then decide (a.day < b.day)
  else if a.hour ≠ b.hour then decide (a.hour < b.hour)
  else if a.minute ≠ b.minute then decide (a.minute < b.minute)
  else decide (a.second < b.second)

/-- The Gregorian leap-year rule `datetime`'s day validation uses. -/
def isLeapYear (y : Nat) : Bool :=
  decide ((y % 4 = 0 ∧ y % 100 ≠ 0) ∨ y % 400 = 0)

/-- Number of days in month `m` of year `y` (for the day-of-month range check
`datetime` performs). -/
def daysInMonth (y m : Nat) : Nat :=
  if m = 2 then (if isLeapYear y then 29 else 28)
  else if m = 4 ∨ m = 6 ∨ m = 9 ∨ m = 11 then 30
  else 31

/-- Numeric value of a decimal digit character, `none` for a non-digit. -/
def digitVal (c : Char) : Option Nat :=
  if c.isDigit then some (c.toNat - 48) else none

/-- Two decimal digit characters as a number. -/
def num2 (a b : Char) : Option Nat := do
  pure ((← digitVal a) * 10 + (← digitVal b))

/-- Four decimal digit characters as a number. -/
def num4 (a b c d : Char) : Option Nat := do
  pure ((← digitVal a) * 1000 + (← digitVal b) * 100 +
    (← digitVal c) * 10 + (← digitVal d))

/-- `datetime.strptime(s, "%Y-%m-%dT%H:%M:%S")` on a string of exactly 19
characters: four year digits, two month digits, two day digits, two hour,
two minute and two second digits with the literal separators in between,
followed by the range validation the `datetime` constructor performs
(`MINYEAR = 1`, `MAXYEAR = 9999`).  `none` models the raised `ValueError`. -/
def strptime19 (s : List Char) : Option PyDateTime :=
  match s with
  | [y1, y2, y3, y4, sepA, m1, m2, sepB, d1, d2, sepT,
     h1, h2, sepC, n1, n2, sepD, s1, s2] =>
    if sepA = '-' ∧ sepB = '-' ∧ sepT = 'T' ∧ sepC = ':' ∧ sepD = ':' then do
      let y ← num4 y1 y2 y3 y4
      let mo ← num2 m1 m2
      let d ← num2 d1 d2
      let h ← num2 h1 h2
      let mi ← num2 n1 n2
      let sec ← num2 s1 s2
      if 1 ≤ y ∧ y ≤ 9999 ∧ 1 ≤ mo ∧ mo ≤ 12 ∧ 1 ≤ d ∧ d ≤ daysInMonth y mo ∧
          h ≤ 23 ∧ mi ≤ 59 ∧ sec ≤ 59 then
        pure ⟨y, mo, d, h, mi, sec⟩
      else none
    else none
  | _ => none

/-- The timestamp parsing step of `find_inactive_pipeline`:
`datetime.strptime(pipeline["createdDate"][:19], "%Y-%m-%dT%H:%M:%S")` —
only the first 19 characters are parsed, truncating any fractional-second
suffix to whole-second precision. -/
def parseCreatedDate (s : List Char) : Option PyDateTime :=
  strptime19 (s.take 19)

/-- The decimal digit character for `n < 10`. -/
def digitChar (n : Nat) : Char :=
  Char.ofNat (48 + n)

/-- A number below 100 rendered as two zero-padded digit characters. -/
def render2 (n : Nat) : List Char :=
  [digitChar (n / 10), digitChar (n % 10)]

/-- A number below 10000 rendered as four zero-padded digit characters. -/
def render4 (n : Nat) : List Char :=
  [digitChar (n / 1000), digitChar (n / 100 % 10),
   digitChar (n / 10 % 10), digitChar (n % 10)]

/-- The zero-padded whole-second portion of a server-emitted creation
timestamp, `YYYY-MM-DDTHH:MM:SS`, before any fractional-second suffix. -/
def renderDT (t : PyDateTime) : List Char :=
  render4 t.year ++ ['-'] ++ render2 t.month ++ ['-'] ++ render2 t.day ++
    ['T'] ++ render2 t.hour ++ [':'] ++ render2 t.minute ++ [':'] ++
    render2 t.second

/-- Field-range validity of a whole-second timestamp: the ranges Python's
`datetime` accepts. -/
def ValidDT (t : PyDateTime) : Prop :=
  1 ≤ t.year ∧ t.year ≤ 9999 ∧ 1 ≤ t.month ∧ t.month ≤ 12 ∧
    1 ≤ t.day ∧ t.day ≤ daysInMonth t.year t.month ∧
    t.hour ≤ 23 ∧ t.minute ≤ 59 ∧ t.second ≤ 59

instance (t : PyDateTime) : Decidable (ValidDT t) := by
  unfold ValidDT
  infer_instance

/-- A fractional-second suffix with exactly `k` digits: empty when `k = 0`,
otherwise a dot followed by `k` digit characters. -/
def isFracSuffix (frac : List Char) (k : Nat) : Bool :=
  match frac with
  | [] => k == 0
  | c :: ds => c == '.' && ds.length == k && ds.all Char.isDigit

/-! ### The pipeline script's traversal and mutation phases -/

/-- The exceptions `app/main.py` can raise on the paths modelled here:
`aiohttp`'s `ClientResponseError` (from `raise_for_status=True` on a GET),
`datetime.strptime`'s `ValueError`, and the script's own
`AzDoMultipleFolderException`. -/
inductive PyError where
  | clientResponseError (text : String)
  | valueError
  | multipleFolder (folderName : String)
  deriving DecidableEq, Repr

/-- One pipeline record as `get_pipelines` returns it (fields
`find_inactive_pipeline` consumes); `createdDate` is the raw timestamp
string. -/
structure Pipeline where
  name : String
  id : Nat
  createdDate : List Char
  deriving DecidableEq, Repr

/-- The body of the folder listing response consumed by
`get_or_create_folder`: the `count` field and the `value` array (folder
records abstracted to numeric identifiers). -/
structure FolderResp where
  status : Nat
  text : String
  count : Nat
  value : List Nat
  deriving DecidableEq, Repr

/-- Response to the build-definition GET inside
`disable_and_archive_pipeline`. -/
structure DefResp where
  status : Nat
  text : String
  deriving DecidableEq, Repr

/-- The server behind one `app/main.py` run. -/
structure PipelineServer where
  projectsResp : CleanTeams.HttpResp String
  pipelinesResp : String → CleanTeams.HttpResp Pipeline
  buildsResp : String → Nat → CleanTeams.HttpResp Nat
  folderResp : String → FolderResp
  folderPutResult : String → Option Nat
  defResp : String → Nat → DefResp

/-- Default of the `threshold_days` parameter of `find_inactive_pipeline`. -/
def defaultThresholdDays : Nat := 365

/-- The per-pipeline loop body of `find_inactive_pipeline`: parse the first
19 characters of `createdDate` (a failure raises `ValueError`); when the
parsed date is older than the threshold, log the pipeline and fetch its most
recent build (`$top = 1`); a non-empty build list skips the pipeline, an
empty one appends `(project_name, pipeline id)`. -/
def inactiveFold (srv : PipelineServer) (projectName : String)
    (thresholdDate : PyDateTime) :
    List Pipeline → List Call × List LogEvent × Except PyError (List (String × Nat))
  | [] => ([], [], .ok [])
  | p :: rest =>
    match parseCreatedDate p.createdDate with
    | none => ([], [], .error .valueError)
    | some created =>
      if dtLt created thresholdDate then
        let bresp := srv.buildsResp projectName p.id
        let bcall : Call := ⟨.GET, .buildsTop1 projectName p.id⟩
        let blog : LogEvent := .pipelineInactive p.name
        if 400 ≤ bresp.status then
          ([bcall], [blog], .error (.clientResponseError bresp.text))
        else
          let r := inactiveFold srv projectName thresholdDate rest
          match r.2.2 with
          | .error e => (bcall :: r.1, blog :: r.2.1, .error e)
          | .ok tail =>
            if bresp.body.value.length ≠ 0 then
              (bcall :: r.1, blog :: r.2.1, .ok tail)
            else
              (bcall :: r.1, blog :: r.2.1, .ok ((projectName, p.id) :: tail))
      else
        inactiveFold srv projectName thresholdDate rest

/-- `find_inactive_pipeline` from `app/main.py` (its body; the
`async with semaphore` wrapper is treated in the concurrency section).
`thresholdDate` stands for the computed
`datetime.now() - timedelta(days=threshold_days)`. -/
def find_inactive_pipeline (srv : PipelineServer) (projectName : String)
    (thresholdDate : PyDateTime) :
    List Call × List LogEvent × Except PyError (List (String × Nat)) :=
  let resp := srv.pipelinesResp projectName
  let call : Call := ⟨.GET, .buildDefinitions projectName⟩
  if 400 ≤ resp.status then ([call], [], .error (.clientResponseError resp.text))
  else
    let r := inactiveFold srv projectName thresholdDate resp.body.value
    match r.2.2 with
    | .error e => (call :: r.1, r.2.1, .error e)
    | .ok l =>
      (call :: r.1, r.2.1 ++ [.inactiveCount projectName l.length], .ok l)

/-- `AzDoSession.get_or_create_folder` from `app/main.py`: GET the folder
listing (raising on status ≥ 400), raise `AzDoMultipleFolderException` when
its `count` field exceeds 1, create the folder with a PUT when the `value`
array is empty (the `put` wrapper catches its own errors, `putResult` is its
possibly-`None` return), and otherwise return the single existing folder
record `value[0]`. -/
def get_or_create_folder (resp : FolderResp) (putResult : Option Nat)
    (projectName folderName : String) :
    List Call × Except PyError (Option Nat) :=
  let getCall : Call := ⟨.GET, .buildFolders projectName⟩
  if 400 ≤ resp.status then ([getCall], .error (.clientResponseError resp.text))
  else if 1 < resp.count then ([getCall], .error (.multipleFolder folderName))
  else if resp.value = [] then
    ([getCall, ⟨.PUT, .buildFolders projectName⟩], .ok putResult)
  else ([getCall], .ok resp.value.head?)

/-- `AzDoSession.disable_and_archive_pipeline` from `app/main.py` (its body;
the semaphore is treated in the concurrency section): GET the build
definition (raising on status ≥ 400), set `queueStatus = "disabled"` and the
archive path, and PUT it back (the `put` wrapper catches its own errors and
never raises). -/
def disable_and_archive_pipeline (srv : PipelineServer)
    (projectName : String) (pipelineId : Nat) :
    List Call × Except PyError Unit :=
  let resp := srv.defResp projectName pipelineId
  let getCall : Call := ⟨.GET, .buildDefinition projectName pipelineId⟩
  if 400 ≤ resp.status then ([getCall], .error (.clientResponseError resp.text))
  else ([getCall, ⟨.PUT, .buildDefinition projectName pipelineId⟩], .ok ())

/-- The traversal phase of `main`: `get_projects`, the "Found n projects"
log, then `find_inactive_pipeline` for every project (the `asyncio.gather`
fan-out is modelled in program order), concatenating the per-project
results. -/
def travFold (srv : PipelineServer) (thresholdDate : PyDateTime) :
    List String → List Call × List LogEvent × Except PyError (List (String × Nat))
  | [] => ([], [], .ok [])
  | pr :: rest =>
    let s := find_inactive_pipeline srv pr thresholdDate
    match s.2.2 with
    | .error e => (s.1, s.2.1, .error e)
    | .ok l =>
      let r := travFold srv thresholdDate rest
      match r.2.2 with
      | .error e => (s.1 ++ r.1, s.2.1 ++ r.2.1, .error e)
      | .ok l2 => (s.1 ++ r.1, s.2.1 ++ r.2.1, .ok (l ++ l2))

/-- The read-only part of `main`: project listing plus classification. -/
def traversal (srv : PipelineServer) (thresholdDate : PyDateTime) :
    List Call × List LogEvent × Except PyError (List (String × Nat)) :=
  let pcall : Call := ⟨.GET, .projects⟩
  let presp := srv.projectsResp
  if 400 ≤ presp.status then
    ([pcall], [], .error (.clientResponseError presp.text))
  else
    let projects := presp.body.value
    let r := travFold srv thresholdDate projects
    (pcall :: r.1, .foundProjects projects.length :: r.2.1, r.2.2)

/-- The archive-folder setup loop of `main`: for every project with an
inactive pipeline, log and run `get_or_create_folder` (an exception
propagates and aborts the run). -/
def archiveSetup (srv : PipelineServer) :
    List String → List Call × List LogEvent × Except PyError Unit
  | [] => ([], [], .ok ())
  | pr :: rest =>
    let s := get_or_create_folder (srv.folderResp pr) (srv.folderPutResult pr)
      pr "archive"
    match s.2 with
    | .error e => (s.1, [.creatingArchiveFolder pr], .error e)
    | .ok _ =>
      let r := archiveSetup srv rest
      (s.1 ++ r.1, .creatingArchiveFolder pr :: r.2.1, r.2.2)

/-- The disable fan-out of `main` (modelled in program order). -/
def disableFold (srv : PipelineServer) :
    List (String × Nat) → List Call × Except PyError Unit
  | [] => ([], .ok ())
  | (pr, pid) :: rest =>
    let s := disable_and_archive_pipeline srv pr pid
    match s.2 with
    | .error e => (s.1, .error e)
    | .ok () =>
      let r := disableFold srv rest
      (s.1 ++ r.1, r.2)

/-- The `if not dry_run:` block of `main`: the "diabling pipelines" log, the
serialized archive-folder setup over the distinct project names, then the
disable fan-out and the final count log. -/
def mutationPhase (srv : PipelineServer) (items : List (String × Nat)) :
    List Call × List LogEvent × Except PyError Unit :=
  let uniq := (items.map Prod.fst).dedup
  let a := archiveSetup srv uniq
  match a.2.2 with
  | .error e => (a.1, .disablingPipelines :: a.2.1, .error e)
  | .ok () =>
    let d := disableFold srv items
    match d.2 with
    | .error e => (a.1 ++ d.1, .disablingPipelines :: a.2.1, .error e)
    | .ok () =>
      (a.1 ++ d.1,
       .disablingPipelines :: a.2.1 ++ [.disabledCount items.length], .ok ())

/-- `main` of `app/main.py` after argument handling: traversal, the total
count log, and — only when `dry_run` is false — the mutation phase. -/
def pipelineMain (srv : PipelineServer) (dryRun : Bool)
    (thresholdDate : PyDateTime) :
    List Call × List LogEvent × Except PyError Unit :=
  let t := traversal srv thresholdDate
  match t.2.2 with
  | .error e => (t.1, t.2.1, .error e)
  | .ok items =>
    let ls := t.2.1 ++ [.totalInactive items.length]
    if dryRun then (t.1, ls, .ok ())
    else
      let m := mutationPhase srv items
      (t.1 ++ m.1, ls ++ m.2.1, m.2.2)

end PipelineApp

/-! ## Release audit script (claims C1, C2, C6 area)

`scripts/get_team_admin_emails.py`: enforce
`releaseCreatorCanBeApprover = false` on the target environment of every
release definition, under an `asyncio.Semaphore(concurrency)`. -/

namespace ReleaseAudit

/-- The `approvalOptions` object; the field is read with
`opts.get("releaseCreatorCanBeApprover", True)`, hence optional with default
`True`. -/
structure ApprovalOptions where
  releaseCreatorCanBeApprover : Option Bool
  deriving DecidableEq, Repr

/-- One environment of a release definition (fields the script consumes). -/
structure EnvDef where
  name : String
  approvalOptions : ApprovalOptions
  deriving DecidableEq, Repr

/-- One full release definition (fields the script consumes). -/
structure FullDef where
  id : Nat
  name : String
  environments : List EnvDef
  deriving DecidableEq, Repr

/-- The per-definition result dict `process_definition` builds. -/
structure DefResult where
  project : String
  definition_id : Nat
  definition_name : String
  env_name : Option String
  updated : Bool
  deriving DecidableEq, Repr

/-- `update_release_definition`: with `dry_run` it prints the would-be update
and returns `None` without any call; otherwise it PUTs the definition,
catching `AzureDevOpsRequestException` itself (`updSrv` gives the PUT's
outcome, `.error` being the exception text), printing the failure and
returning `None` on error. -/
def update_release_definition (updSrv : Nat → Except String Unit)
    (dryRun : Bool) (projectName : String) (d : FullDef) :
    List Call × List LogEvent × Option Unit :=
  if dryRun then ([], [.wouldAct d.name], none)
  else
    let call : Call := ⟨.PUT, .releaseDefinition projectName d.id⟩
    match updSrv d.id with
    | .ok () => ([call], [.updatedDefinition d.name projectName], some ())
    | .error e => ([call], [.updateFailed d.name projectName e], none)

/-- The `for env in full_def.get("environments", [])` loop of
`process_definition`: for every environment whose name matches the target
case-insensitively and whose `releaseCreatorCanBeApprover` reads true, set it
to false, mark the definition updated, record the environment name
(overwritten by later matches) and print; already-false environments only
print.  Returns the rewritten environments, the `updated` flag, the final
`env_name`, and the log lines. -/
def enforceEnvs (target defName projectName : String) :
    List EnvDef → List EnvDef × Bool × Option String × List LogEvent
  | [] => ([], false, none, [])
  | e :: rest =>
    let r := enforceEnvs target defName projectName rest
    if pyLower e.name = pyLower target then
      if e.approvalOptions.releaseCreatorCanBeApprover.getD true then
        let e2 : EnvDef := { e with approvalOptions := ⟨some false⟩ }
        let envName := match r.2.2.1 with
          | some x => some x
          | none => some e.name
        (e2 :: r.1, true, envName, .enforcing e.name defName projectName :: r.2.2.2)
      else
        (e :: r.1, r.2.1, r.2.2.1,
         .alreadyEnforced e.name defName projectName :: r.2.2.2)
    else
      (e :: r.1, r.2.1, r.2.2.1, r.2.2.2)

/-- `process_definition` (its body; the `async with semaphore` wrapper is
treated in the concurrency section): fetch the full definition (`fetchSrv`,
`.error` modelling a raised `AzureDevOpsRequestException`, which the
function's own `except` catches, printing and returning `{}` — modelled as
`none`), scan the environments, and when something flipped, send the update
(whose own failures are contained inside `update_release_definition`). -/
def process_definition (fetchSrv : Nat → Except String FullDef)
    (updSrv : Nat → Except String Unit) (projectName : String) (defId : Nat)
    (target : String) (dryRun : Bool) :
    List Call × List LogEvent × Option DefResult :=
  let fcall : Call := ⟨.GET, .releaseDefinition projectName defId⟩
  match fetchSrv defId with
  | .error e => ([fcall], [.definitionFailed projectName e], none)
  | .ok fd =>
    let scan := enforceEnvs target fd.name projectName fd.environments
    let res : DefResult :=
      ⟨projectName, defId, fd.name, scan.2.2.1, scan.2.1⟩
    if scan.2.1 then
      let fd2 : FullDef := { fd with environments := scan.1 }
      let u := update_release_definition updSrv dryRun projectName fd2
      (fcall :: u.1, scan.2.2.2 ++ u.2.1, some res)
    else ([fcall], scan.2.2.2, some res)

/-- The `asyncio.gather` over one project's definitions (program order). -/
def processBatch (fetchSrv : Nat → Except String FullDef)
    (updSrv : Nat → Except String Unit) (projectName target : String)
    (dryRun : Bool) :
    List Nat → List Call × List LogEvent × List (Option DefResult)
  | [] => ([], [], [])
  | d :: rest =>
    let s := process_definition fetchSrv updSrv projectName d target dryRun
    let r := processBatch fetchSrv updSrv projectName target dryRun rest
    (s.1 ++ r.1, s.2.1 ++ r.2.1, s.2.2 :: r.2.2)

/-- `process_project`: list the project's release definitions (`listSrv`,
`.error` modelling a raised exception, caught by the function's own
`except`, which prints and returns `None`), then the definition batch. -/
def process_project (listSrv : String → Except String (List Nat))
    (fetchSrv : Nat → Except String FullDef)
    (updSrv : Nat → Except String Unit) (projectName target : String)
    (dryRun : Bool) :
    List Call × List LogEvent × Option (List (Option DefResult)) :=
  let lcall : Call := ⟨.GET, .releaseDefinitions projectName⟩
  match listSrv projectName with
  | .error e => ([lcall], [.projectFailed projectName e], none)
  | .ok defs =>
    let r := processBatch fetchSrv updSrv projectName target dryRun defs
    (lcall :: r.1, r.2.1, some r.2.2)

/-- The `asyncio.gather` over all projects in `main` (program order): one
entry per project, `none` for a project whose listing failed. -/
def processProjects (listSrv : String → Except String (List Nat))
    (fetchSrv : String → Nat → Except String FullDef)
    (updSrv : String → Nat → Except String Unit) (target : String)
    (dryRun : Bool) (projects : List String) :
    List (List Call × List LogEvent × Option (List (Option DefResult))) :=
  projects.map (fun pr =>
    process_project listSrv (fetchSrv pr) (updSrv pr) pr target dryRun)

end ReleaseAudit

/-! ## The concurrency gate (claim C1 area)

Both fan-outs guard their mutation body with `async with semaphore`:
`disable_and_archive_pipeline` in `app/main.py` under the module-level
`asyncio.Semaphore(10)`, and `process_definition` in
`scripts/get_team_admin_emails.py` under the `asyncio.Semaphore(concurrency)`
created in `main`.  The `async with` protocol acquires a permit before the
body starts and releases it when the body exits, normally or by exception.

The fan-out is modelled as a transition system: each task is `idle` (awaiting
the semaphore), `inCall` (holding a permit, its network call in flight), or
`done` (permit released, with the body's success recorded).  A task may enter
`inCall` only while fewer than `n` tasks are in it — the semaphore's
admission rule — and leaves it unconditionally, whether its body succeeded or
raised. -/

namespace Gate

/-- The phase of one fanned-out mutation task. -/
inductive Phase where
  | idle
  | inCall
  | done (ok : Bool)
  deriving DecidableEq, Repr

/-- Number of tasks whose network call is in flight. -/
def inFlight (ts : List Phase) : Nat :=
  ts.countP (fun p => p = Phase.inCall)

/-- Capacity of the module-level semaphore in `app/main.py`:
`semaphore = asyncio.Semaphore(10)`. -/
def pipelineSemaphoreCapacity : Nat := 10

/-- One scheduler step of the fan-out under a semaphore of capacity `n`:
an idle task acquires a permit and starts its call only when fewer than `n`
calls are in flight; a task whose call finished — successfully (`ok = true`)
or by exception (`ok = false`) — releases its permit. -/
inductive Step (n : Nat) : List Phase → List Phase → Prop where
  | acquire (ts : List Phase) (i : Nat) (hi : ts.get? i = some .idle)
      (hcap : inFlight ts < n) : Step n ts (ts.set i .inCall)
  | release (ts : List Phase) (i : Nat) (ok : Bool)
      (hi : ts.get? i = some .inCall) : Step n ts (ts.set i (.done ok))

/-- All tasks of the fan-out start awaiting the semaphore. -/
def initTasks (m : Nat) : List Phase :=
  List.replicate m .idle

/-- The states a run with `m` schedulable mutation tasks under capacity `n`
can reach. -/
def Reachable (n m : Nat) (ts : List Phase) : Prop :=
  Relation.ReflTransGen (Step n) (initTasks m) ts

end Gate

/-! ## Example data (used by concrete witnesses and counterexamples) -/

/-- `true` exactly on the per-item dry-run log line. -/
def LogEvent.isWouldAct : LogEvent → Bool
  | .wouldAct _ => true
  | _ => false

/-- A three-page chain (with an empty middle page) for the cleanup script's
pagination loop. -/
def srvChain3 : Option String → CleanTeams.HttpResp Nat := fun tok =>
  match tok with
  | none => ⟨200, "", ⟨[1, 2], some "t1"⟩⟩
  | some "t1" => ⟨200, "", ⟨[], some "t2"⟩⟩
  | some "t2" => ⟨200, "", ⟨[3], none⟩⟩
  | some _ => ⟨500, "bad token", ⟨[], none⟩⟩

/-- A two-page chain used against the pipeline script's single-request
listings. -/
def srvChain2 : Option String → CleanTeams.HttpResp Nat := fun tok =>
  match tok with
  | none => ⟨200, "", ⟨[10], some "t"⟩⟩
  | some _ => ⟨200, "", ⟨[20], none⟩⟩

/-- A pipeline created in 2020, with a 7-digit fractional-second suffix. -/
def examplePipeline : PipelineApp.Pipeline :=
  ⟨"legacy-build", 7, "2020-01-02T03:04:05.1234567".data⟩

/-- A threshold date every 2020 creation is older than. -/
def exampleThreshold : PipelineApp.PyDateTime :=
  ⟨2024, 1, 1, 0, 0, 0⟩

/-- A one-project, one-inactive-pipeline server for `app/main.py`, with the
archive-folder listing reporting `count = folderCount`. -/
def exampleServer (folderCount : Nat) : PipelineApp.PipelineServer where
  projectsResp := ⟨200, "", ⟨["P"], none⟩⟩
  pipelinesResp := fun _ => ⟨200, "", ⟨[examplePipeline], none⟩⟩
  buildsResp := fun _ _ => ⟨200, "", ⟨[], none⟩⟩
  folderResp := fun _ => ⟨200, "", folderCount, []⟩
  folderPutResult := fun _ => some 1
  defResp := fun _ _ => ⟨200, ""⟩

/-! ## Theorems -/

/-! ### Timestamp helper lemmas -/

namespace PipelineApp

theorem digitVal_digitChar (n : Nat) (h : n < 10) :
    digitVal (digitChar n) = some n := by
  interval_cases n <;> decide

theorem num2_render2 (n : Nat) (h : n < 100) :
    num2 (digitChar (n / 10)) (digitChar (n % 10)) = some n := by
  have h1 : n / 10 < 10 := by omega
  have h2 : n % 10 < 10 := by omega
  simp [num2, digitVal_digitChar _ h1, digitVal_digitChar _ h2]
  omega

theorem num4_render4 (n : Nat) (h : n < 10000) :
    num4 (digitChar (n / 1000)) (digitChar (n / 100 % 10))
      (digitChar (n / 10 % 10)) (digitChar (n % 10)) = some n := by
  have h1 : n / 1000 < 10 := by omega
  have h2 : n / 100 % 10 < 10 := by omega
  have h3 : n / 10 % 10 < 10 := by omega
  have h4 : n % 10 < 10 := by omega
  simp [num4, digitVal_digitChar _ h1, digitVal_digitChar _ h2,
    digitVal_digitChar _ h3, digitVal_digitChar _ h4]
  omega

theorem renderDT_length (t : PyDateTime) : (renderDT t).length = 19 := by
  rfl

theorem strptime19_renderDT (t : PyDateTime) (h : ValidDT t) :
    strptime19 (renderDT t) = some t := by
  obtain ⟨y, mo, d, hh, mi, s⟩ := t
  simp only [ValidDT] at h
  obtain ⟨hy1, hy2, hm1, hm2, hd1, hd2, hh2, hmi2, hs2⟩ := h
  have hd31 : daysInMonth y mo ≤ 31 := by
    unfold daysInMonth
    split
    · split <;> omega
    · split <;> omega
  show strptime19 [digitChar (y / 1000), digitChar (y / 100 % 10),
    digitChar (y / 10 % 10), digitChar (y % 10), '-',
    digitChar (mo / 10), digitChar (mo % 10), '-',
    digitChar (d / 10), digitChar (d % 10), 'T',
    digitChar (hh / 10), digitChar (hh % 10), ':',
    digitChar (mi / 10), digitChar (mi % 10), ':',
    digitChar (s / 10), digitChar (s % 10)] = some ⟨y, mo, d, hh, mi, s⟩
  rw [strptime19]
  rw [if_pos (by decide)]
  rw [num4_render4 y (by omega), num2_render2 mo (by omega),
    num2_render2 d (by omega), num2_render2 hh (by omega),
    num2_render2 mi (by omega), num2_render2 s (by omega)]
  simp only [Option.bind_eq_bind, Option.some_bind]
  rw [if_pos]
  · rfl
  · exact ⟨hy1, hy2, hm1, hm2, hd1, hd2, hh2, hmi2, hs2⟩

theorem parseCreatedDate_render_frac (t : PyDateTime) (frac : List Char)
    (h : ValidDT t) :
    parseCreatedDate (renderDT t ++ frac) = some t := by
  unfold parseCreatedDate
  have htake : (renderDT t ++ frac).take 19 = renderDT t := by
    rw [← renderDT_length t]
    exact List.take_left _ _
  rw [htake]
  exact strptime19_renderDT t h

end PipelineApp

/-! ### Concurrency gate lemmas -/

namespace Gate

theorem countP_set_eq (p : Phase → Bool) :
    ∀ (ts : List Phase) (i : Nat) (a b : Phase), ts.get? i = some a →
      (ts.set i b).countP p + (if p a then 1 else 0) =
        ts.countP p + (if p b then 1 else 0)
  | [], i, a, b, h => by simp at h
  | x :: t, 0, a, b, h => by
    simp only [List.get?] at h
    injection h with h
    subst h
    simp only [List.set, List.countP_cons]
    omega
  | x :: t, i + 1, a, b, h => by
    simp only [List.get?] at h
    have ih := countP_set_eq p t i a b h
    simp only [List.set, List.countP_cons]
    omega

theorem inFlight_initTasks (m : Nat) : inFlight (initTasks m) = 0 := by
  induction m with
  | zero => rfl
  | succ k ih =>
    simp only [initTasks, List.replicate, inFlight, List.countP_cons] at ih ⊢
    simp [ih]

theorem inFlight_step {n : Nat} {ts ts2 : List Phase} (h : Step n ts ts2)
    (hinv : inFlight ts ≤ n) : inFlight ts2 ≤ n := by
  cases h with
  | acquire i hi hcap =>
    have := countP_set_eq (fun p => p = Phase.inCall) ts i .idle .inCall hi
    simp only [inFlight] at hcap ⊢
    simp at this
    omega
  | release i ok hi =>
    have := countP_set_eq (fun p => p = Phase.inCall) ts i .inCall (.done ok) hi
    simp only [inFlight] at hinv ⊢
    simp at this
    omega

end Gate

/-- Claim C1: with Gate capacity `n` (the module-level `asyncio.Semaphore(10)`
in the pipeline script, the `--concurrency` semaphore in the release script)
and any number `m` of concurrently schedulable mutation tasks, every task
acquires a permit before its network call and releases it unconditionally
afterwards (also on error), so in every reachable scheduler state at most
`n` mutation calls are in flight. -/
theorem claim_C1_concurrency_bound (n m : Nat) (ts : List Gate.Phase)
    (h : Gate.Reachable n m ts) : Gate.inFlight ts ≤ n := by
  induction h with
  | refl => simp [Gate.inFlight_initTasks]
  | tail _ hstep ih => exact Gate.inFlight_step hstep ih

theorem claim_C1_concurrency_bound_witness :
    Gate.inFlight [Gate.Phase.inCall, Gate.Phase.inCall, Gate.Phase.idle] ≤ 2 := by
  have s1 : Gate.Step 2 [Gate.Phase.idle, Gate.Phase.idle, Gate.Phase.idle]
      [Gate.Phase.inCall, Gate.Phase.idle, Gate.Phase.idle] :=
    Gate.Step.acquire _ 0 (by decide) (by decide)
  have s2 : Gate.Step 2 [Gate.Phase.inCall, Gate.Phase.idle, Gate.Phase.idle]
      [Gate.Phase.inCall, Gate.Phase.inCall, Gate.Phase.idle] :=
    Gate.Step.acquire _ 1 (by decide) (by decide)
  exact claim_C1_concurrency_bound 2 3 _
    (Relation.ReflTransGen.tail (Relation.ReflTransGen.single s1) s2)

/-- Claim C3 counterexample: in `scripts/get_team_admin_emails.py` the
dry-run flag does not default to true — with no flag and no environment
configuration its value is `False`. -/
theorem claim_C3_counterexample :
    ReleaseAudit.dryRunDefault = false ∧ ReleaseAudit.dryRunDefault ≠ true := by
  exact ⟨rfl, by decide⟩

/-- Claim C3 as amended: in the pipeline and cleanup scripts the dry-run flag
defaults to true when neither the flag nor the `DRY_RUN` environment variable
is supplied; in the release audit script `--dry-run` is a store-true flag
whose value is exactly "the flag was given", so with no configuration it
defaults to false. -/
theorem claim_C3_amended :
    PipelineApp.dryRunDefault none = true ∧
    CleanTeams.dryRunDefault none = true ∧
    (∀ flagGiven, ReleaseAudit.dryRunValue flagGiven = flagGiven) ∧
    ReleaseAudit.dryRunDefault = false := by
  refine ⟨by decide, by decide, fun _ => rfl, rfl⟩

/-- Claim C7: a creation timestamp with 0, 3 or 7 fractional-second digits is
parsed by truncating to its first 19 characters (whole-second precision,
`%Y-%m-%dT%H:%M:%S`), recovering exactly the whole-second timestamp, and
therefore compares against any whole-second threshold exactly as the
whole-second timestamp does. -/
theorem claim_C7_timestamp_tolerance (t : PipelineApp.PyDateTime)
    (thr : PipelineApp.PyDateTime) (k : Nat) (frac : List Char)
    (hv : PipelineApp.ValidDT t) (_hk : k = 0 ∨ k = 3 ∨ k = 7)
    (_hf : PipelineApp.isFracSuffix frac k = true) :
    PipelineApp.parseCreatedDate (PipelineApp.renderDT t ++ frac) = some t ∧
    (PipelineApp.parseCreatedDate (PipelineApp.renderDT t ++ frac)).map
      (fun c => PipelineApp.dtLt c thr) = some (PipelineApp.dtLt t thr) := by
  have h := PipelineApp.parseCreatedDate_render_frac t frac hv
  exact ⟨h, by rw [h]; rfl⟩

namespace CleanTeams

theorem pagedList_chains {α : Type} (mkCall : Call)
    (srv : Option String → HttpResp α) {tok : Option String}
    {ps : List (PageResp α)} (h : Chains srv tok ps) :
    ∀ fuel, ps.length ≤ fuel →
      (pagedList mkCall srv fuel tok).2 =
        some (.ok (ps.map PageResp.value).flatten) := by
  induction h with
  | last tok p h200 hbody htok =>
    intro fuel hf
    cases fuel with
    | zero => simp at hf
    | succ f =>
      simp only [pagedList, h200, hbody]
      rw [if_neg (by simp)]
      rcases hc : p.continuationToken with _ | t
      · simp
      · rw [hc] at htok
        simp only [tokenTruthy, bne_eq_false_iff_eq] at htok
        subst htok
        simp
  | step tok p t ps h200 hbody htokSome hne hchain ih =>
    intro fuel hf
    cases fuel with
    | zero => simp at hf
    | succ f =>
      have hlen : ps.length ≤ f := by
        simp only [List.length_cons] at hf
        omega
      have hrec := ih f hlen
      simp only [pagedList, h200, hbody, htokSome]
      rw [if_neg (by simp)]
      rw [if_neg hne]
      rcases hp : pagedList mkCall srv f (some t) with ⟨cs, r⟩
      rw [hp] at hrec
      simp only at hrec
      subst hrec
      simp

end CleanTeams

/-- Claim C4 as amended: the cleanup script's `get_projects`, `get_teams` and
`get_team_members` each return exactly the concatenation of all chained
pages' `value` items in server order, terminating after the first page
without a truthy continuation token (an empty page with a token still
continues); the pipeline script's `get_projects` and `get_pipelines`,
however, issue a single request and return only the first response's
`value`, ignoring any continuation token. -/
theorem claim_C4_amended :
    (∀ (α : Type) (srv : Option String → CleanTeams.HttpResp α)
        (ps : List (CleanTeams.PageResp α)) (fuel : Nat),
        CleanTeams.Chains srv none ps → ps.length ≤ fuel →
        (CleanTeams.get_projects srv fuel).2 =
          some (.ok (ps.map CleanTeams.PageResp.value).flatten)) ∧
    (∀ (α : Type) (srv : String → Option String → CleanTeams.HttpResp α)
        (projectId : String) (ps : List (CleanTeams.PageResp α)) (fuel : Nat),
        CleanTeams.Chains (srv projectId) none ps → ps.length ≤ fuel →
        (CleanTeams.get_teams srv projectId fuel).2 =
          some (.ok (ps.map CleanTeams.PageResp.value).flatten)) ∧
    (∀ (α : Type) (srv : String → Option String → CleanTeams.HttpResp α)
        (teamId : String) (ps : List (CleanTeams.PageResp α)) (fuel : Nat),
        CleanTeams.Chains (srv teamId) none ps → ps.length ≤ fuel →
        (CleanTeams.get_team_members srv teamId fuel).2 =
          some (.ok (ps.map CleanTeams.PageResp.value).flatten)) ∧
    (∀ (α : Type) (srv : Option String → CleanTeams.HttpResp α),
        (srv none).status < 400 →
        PipelineApp.get_projects srv = .ok (srv none).body.value) ∧
    (∀ (α : Type) (srv : String → Option String → CleanTeams.HttpResp α)
        (projectName : String), (srv projectName none).status < 400 →
        PipelineApp.get_pipelines srv projectName =
          .ok (srv projectName none).body.value) := by
  refine ⟨?_, ?_, ?_, ?_, ?_⟩
  · intro α srv ps fuel hch hf
    exact CleanTeams.pagedList_chains _ srv hch fuel hf
  · intro α srv projectId ps fuel hch hf
    exact CleanTeams.pagedList_chains _ (srv projectId) hch fuel hf
  · intro α srv teamId ps fuel hch hf
    exact CleanTeams.pagedList_chains _ (srv teamId) hch fuel hf
  · intro α srv hs
    unfold PipelineApp.get_projects
    rw [if_neg (by omega)]
  · intro α srv projectName hs
    unfold PipelineApp.get_pipelines
    rw [if_neg (by omega)]

theorem claim_C4_amended_witness :
    (CleanTeams.get_projects srvChain3 3).2 = some (.ok [1, 2, 3]) := by
  have hch : CleanTeams.Chains srvChain3 none
      [⟨[1, 2], some "t1"⟩, ⟨[], some "t2"⟩, ⟨[3], none⟩] :=
    CleanTeams.Chains.step none ⟨[1, 2], some "t1"⟩ "t1" _ rfl rfl rfl
      (by decide)
      (CleanTeams.Chains.step (some "t1") ⟨[], some "t2"⟩ "t2" _ rfl rfl rfl
        (by decide)
        (CleanTeams.Chains.last (some "t2") ⟨[3], none⟩ rfl rfl rfl))
  have h := claim_C4_amended.1 Nat srvChain3 _ 3 hch (by decide)
  simpa using h

/-- Claim C4 counterexample: over a two-page chain the pipeline script's
`get_projects` returns only the first page's items, not the concatenation of
all pages. -/
theorem claim_C4_counterexample :
    CleanTeams.Chains srvChain2 none
      [⟨[10], some "t"⟩, ⟨[20], none⟩] ∧
    PipelineApp.get_projects srvChain2 = .ok [10] ∧
    (([⟨[10], some "t"⟩, ⟨[20], none⟩] :
        List (CleanTeams.PageResp Nat)).map CleanTeams.PageResp.value).flatten =
      [10, 20] ∧
    PipelineApp.get_projects srvChain2 ≠ .ok [10, 20] := by
  refine ⟨?_, rfl, rfl, ?_⟩
  · exact CleanTeams.Chains.step none ⟨[10], some "t"⟩ "t" _ rfl rfl rfl
      (by decide) (CleanTeams.Chains.last (some "t") ⟨[20], none⟩ rfl rfl rfl)
  · intro h
    rw [show PipelineApp.get_projects srvChain2 = Except.ok [10] from rfl] at h
    simp at h

namespace CleanTeams

theorem processMembers_append (delSrv : String → String → DeleteResp)
    (team : String) (dryRun : Bool) (ms1 ms2 : List Member) :
    processMembers delSrv team dryRun (ms1 ++ ms2) =
      ((processMembers delSrv team dryRun ms1).1 ++
         (processMembers delSrv team dryRun ms2).1,
       (processMembers delSrv team dryRun ms1).2 ++
         (processMembers delSrv team dryRun ms2).2) := by
  induction ms1 with
  | nil => simp [processMembers]
  | cons m rest ih =>
    simp only [List.cons_append, processMembers, List.append_eq]
    rw [ih]
    simp [List.append_assoc]

theorem remove_live_calls (delSrv : String → String → DeleteResp)
    (team member : String) :
    (remove_member_from_team delSrv team member false).1 =
      [⟨.DELETE, .graphMembership member team⟩] := by
  rw [remove_member_from_team]
  simp only [Bool.false_eq_true, if_false]
  split
  · rfl
  · split <;> rfl

end CleanTeams

/-- Claim C5: in a live (non-dry-run) removal, a 204 logs the removed
outcome; a 404 logs "not found or already removed" — a success-class line,
never the failure line — so applying the mutation a second time to an
already-removed member succeeds; any other status logs the failure with the
response text attached; and the member loop is the concatenation of the
per-member steps, so execution always continues to the next item. -/
theorem claim_C5_idempotent_removal
    (delSrv : String → String → CleanTeams.DeleteResp) (team member : String) :
    ((delSrv member team).status = 204 →
      (CleanTeams.remove_member_from_team delSrv team member false).2 =
        [.removedOk member]) ∧
    ((delSrv member team).status = 404 →
      (CleanTeams.remove_member_from_team delSrv team member false).2 =
        [.alreadyGone member] ∧
      ∀ e ∈ (CleanTeams.remove_member_from_team delSrv team member false).2,
        CleanTeams.isRemoveFailure e = false) ∧
    ((delSrv member team).status ≠ 204 → (delSrv member team).status ≠ 404 →
      (CleanTeams.remove_member_from_team delSrv team member false).2 =
        [.removeFailed member (delSrv member team).text]) ∧
    (∀ (dryRun : Bool) (ms1 ms2 : List CleanTeams.Member),
      CleanTeams.processMembers delSrv team dryRun (ms1 ++ ms2) =
        ((CleanTeams.processMembers delSrv team dryRun ms1).1 ++
           (CleanTeams.processMembers delSrv team dryRun ms2).1,
         (CleanTeams.processMembers delSrv team dryRun ms1).2 ++
           (CleanTeams.processMembers delSrv team dryRun ms2).2)) := by
  refine ⟨?_, ?_, ?_, ?_⟩
  · intro h
    simp [CleanTeams.remove_member_from_team, h]
  · intro h
    refine ⟨by simp [CleanTeams.remove_member_from_team, h], ?_⟩
    intro e he
    simp [CleanTeams.remove_member_from_team, h] at he
    subst he
    rfl
  · intro h204 h404
    simp [CleanTeams.remove_member_from_team, h204, h404]
  · intro dryRun ms1 ms2
    exact CleanTeams.processMembers_append delSrv team dryRun ms1 ms2

theorem claim_C5_idempotent_removal_witness :
    (CleanTeams.remove_member_from_team (fun _ _ => ⟨404, "not found"⟩)
        "vsts.team" "aad.user" false).2 = [.alreadyGone "aad.user"] := by
  exact ((claim_C5_idempotent_removal (fun _ _ => ⟨404, "not found"⟩)
    "vsts.team" "aad.user").2.1 rfl).1

/-- Claim C9 as amended: the cleanup script attempts removal exactly when the
member's descriptor starts with `"aad."` — the DELETE is issued iff that
marker is present, the removal path logs the "Removing Azure AD user"
reason, and any other member (whether or not its identifier contains an `@`)
is skipped with the "Skipping non-user (group or service)" reason. -/
theorem claim_C9_amended
    (delSrv : String → String → CleanTeams.DeleteResp) (team : String)
    (dryRun : Bool) (m : CleanTeams.Member) :
    ((CleanTeams.processMember delSrv team false m).1.any
        Call.stateChanging = pyStartsWith m.memberDescriptor "aad.") ∧
    (pyStartsWith m.memberDescriptor "aad." = true →
      (CleanTeams.processMember delSrv team dryRun m).2.head? =
        some (.removingUser m.memberDescriptor)) ∧
    (pyStartsWith m.memberDescriptor "aad." = false →
      CleanTeams.processMember delSrv team dryRun m =
        ([], [.skippingNonUser m.memberDescriptor])) := by
  refine ⟨?_, ?_, ?_⟩
  · rcases hsw : pyStartsWith m.memberDescriptor "aad." with _ | _
    · simp [CleanTeams.processMember, hsw]
    · simp [CleanTeams.processMember, hsw, CleanTeams.remove_live_calls,
        Call.stateChanging]
  · intro hsw
    simp [CleanTeams.processMember, hsw]
  · intro hsw
    simp [CleanTeams.processMember, hsw]

theorem claim_C9_amended_witness :
    (CleanTeams.processMember (fun _ _ => ⟨204, ""⟩) "vsts.team" true
        ⟨"aad.user"⟩).2.head? = some (.removingUser "aad.user") := by
  exact (claim_C9_amended (fun _ _ => ⟨204, ""⟩) "vsts.team" true
    ⟨"aad.user"⟩).2.1 (by decide)

/-- Claim C9 counterexample: the descriptor `alice@example.com` matches the
claim's human-account signature (it contains an `@`), yet the cleanup script
skips it — no removal is attempted and the member is logged as a skipped
non-user, because the code tests only the `aad.` descriptor marker. -/
theorem claim_C9_counterexample :
    CleanTeams.humanSignatureSpec "alice@example.com" = true ∧
    CleanTeams.processMember (fun _ _ => ⟨204, ""⟩) "vsts.team" false
        ⟨"alice@example.com"⟩ =
      ([], [.skippingNonUser "alice@example.com"]) := by
  exact ⟨by decide, by decide⟩

/-- Claim C6: failures are contained at the smallest scope.  In the release
script the definition batch always produces one result slot per definition
and never raises; an update (mutation) failure is contained inside
`update_release_definition`, so the item still produces its outcome; an
update failure injected at one definition id leaves every other item's
result unchanged; the project fan-out yields one entry per project, and a
project's entry depends only on that project's own listing, so one project's
failure never cancels another's traversal.  In the cleanup script a member's
step depends only on that member's own DELETE response. -/
theorem claim_C6_failure_isolation :
    (∀ (fetchSrv : Nat → Except String ReleaseAudit.FullDef)
        (updSrv : Nat → Except String Unit) (pr target : String) (dr : Bool)
        (defs : List Nat),
        (ReleaseAudit.processBatch fetchSrv updSrv pr target dr defs).2.2.length
          = defs.length) ∧
    (∀ (fetchSrv : Nat → Except String ReleaseAudit.FullDef)
        (updSrv : Nat → Except String Unit) (pr target : String) (dr : Bool)
        (d : Nat) (fd : ReleaseAudit.FullDef), fetchSrv d = .ok fd →
        ∃ r, (ReleaseAudit.process_definition fetchSrv updSrv pr d target
          dr).2.2 = some r) ∧
    (∀ (fetchSrv : Nat → Except String ReleaseAudit.FullDef)
        (updSrv : Nat → Except String Unit) (pr target : String) (dr : Bool)
        (j : Nat) (err : String) (d : Nat) (fd : ReleaseAudit.FullDef),
        fetchSrv d = .ok fd → fd.id ≠ j →
        ReleaseAudit.process_definition fetchSrv
            (fun k => if k = j then .error err else updSrv k) pr d target dr =
          ReleaseAudit.process_definition fetchSrv updSrv pr d target dr) ∧
    (∀ (listSrv : String → Except String (List Nat))
        (fetchSrv : String → Nat → Except String ReleaseAudit.FullDef)
        (updSrv : String → Nat → Except String Unit) (target : String)
        (dr : Bool) (projects : List String),
        (ReleaseAudit.processProjects listSrv fetchSrv updSrv target dr
          projects).length = projects.length) ∧
    (∀ (listSrv listSrv2 : String → Except String (List Nat))
        (fetchSrv : Nat → Except String ReleaseAudit.FullDef)
        (updSrv : Nat → Except String Unit) (pr target : String) (dr : Bool),
        listSrv2 pr = listSrv pr →
        ReleaseAudit.process_project listSrv2 fetchSrv updSrv pr target dr =
          ReleaseAudit.process_project listSrv fetchSrv updSrv pr target dr) ∧
    (∀ (delSrv delSrv2 : String → String → CleanTeams.DeleteResp)
        (team : String) (dr : Bool) (m : CleanTeams.Member),
        delSrv m.memberDescriptor team = delSrv2 m.memberDescriptor team →
        CleanTeams.processMember delSrv team dr m =
          CleanTeams.processMember delSrv2 team dr m) := by
  refine ⟨?_, ?_, ?_, ?_, ?_, ?_⟩
  · intro fetchSrv updSrv pr target dr defs
    induction defs with
    | nil => rfl
    | cons d rest ih =>
      simp only [ReleaseAudit.processBatch, List.length_cons, ih]
  · intro fetchSrv updSrv pr target dr d fd hf
    unfold ReleaseAudit.process_definition
    rw [hf]
    simp only
    split <;> exact ⟨_, rfl⟩
  · intro fetchSrv updSrv pr target dr j err d fd hf hne
    unfold ReleaseAudit.process_definition
    rw [hf]
    simp only
    split
    · unfold ReleaseAudit.update_release_definition
      split
      · rfl
      · simp [hne]
    · rfl
  · intro listSrv fetchSrv updSrv target dr projects
    simp [ReleaseAudit.processProjects]
  · intro listSrv listSrv2 fetchSrv updSrv pr target dr h
    unfold ReleaseAudit.process_project
    rw [h]
  · intro delSrv delSrv2 team dr m h
    unfold CleanTeams.processMember CleanTeams.remove_member_from_team
    rw [h]

theorem claim_C6_failure_isolation_witness :
    ∃ r, (ReleaseAudit.process_definition
        (fun _ => .ok ⟨5, "release-D", []⟩) (fun _ => .error "injected")
        "P" 5 "prod" false).2.2 = some r := by
  exact claim_C6_failure_isolation.2.1 (fun _ => .ok ⟨5, "release-D", []⟩)
    (fun _ => .error "injected") "P" "prod" false 5 ⟨5, "release-D", []⟩ rfl

namespace PipelineApp

theorem inactiveFold_calls_GET (srv : PipelineServer) (pr : String)
    (thr : PyDateTime) (ps : List Pipeline) :
    ∀ c ∈ (inactiveFold srv pr thr ps).1, c.method = .GET := by
  induction ps with
  | nil => intro c hc; simp [inactiveFold] at hc
  | cons p rest ih =>
    intro c hc
    rcases hrec : inactiveFold srv pr thr rest with ⟨cs, ls, r⟩
    have ih2 : ∀ c2 ∈ cs, c2.method = Method.GET := by
      intro c2 h2
      apply ih
      rw [hrec]
      exact h2
    unfold inactiveFold at hc
    dsimp only at hc
    rw [hrec] at hc
    split at hc
    · simp at hc
    · split at hc
      · split at hc
        · simp at hc
          subst hc
          rfl
        · dsimp only at hc
          rcases r with e | tail
          · simp at hc
            rcases hc with hc | hc
            · subst hc; rfl
            · exact ih2 c hc
          · dsimp only at hc
            have hc2 : c ∈
                ((⟨Method.GET, Endpoint.buildsTop1 pr p.id⟩ : Call) :: cs) := by
              by_cases hb : (srv.buildsResp pr p.id).body.value.length ≠ 0
              · rw [if_pos hb] at hc
                exact hc
              · rw [if_neg hb] at hc
                exact hc
            rcases List.mem_cons.mp hc2 with rfl | hmem
            · rfl
            · exact ih2 c hmem
      · exact ih2 c (by simpa using hc)

theorem find_inactive_calls_GET (srv : PipelineServer) (pr : String)
    (thr : PyDateTime) :
    ∀ c ∈ (find_inactive_pipeline srv pr thr).1, c.method = .GET := by
  intro c hc
  unfold find_inactive_pipeline at hc
  dsimp only at hc
  split at hc
  · simp at hc
    subst hc
    rfl
  · split at hc <;>
    · simp at hc
      rcases hc with hc | hc
      · subst hc; rfl
      · exact inactiveFold_calls_GET srv pr thr _ c hc

theorem travFold_calls_GET (srv : PipelineServer) (thr : PyDateTime)
    (prs : List String) :
    ∀ c ∈ (travFold srv thr prs).1, c.method = .GET := by
  induction prs with
  | nil => intro c hc; simp [travFold] at hc
  | cons pr rest ih =>
    intro c hc
    unfold travFold at hc
    dsimp only at hc
    split at hc
    · exact find_inactive_calls_GET srv pr thr c hc
    · split at hc <;>
      · simp at hc
        rcases hc with hc | hc
        · exact find_inactive_calls_GET srv pr thr c hc
        · exact ih c hc

theorem traversal_calls_GET (srv : PipelineServer) (thr : PyDateTime) :
    ∀ c ∈ (traversal srv thr).1, c.method = .GET := by
  intro c hc
  unfold traversal at hc
  dsimp only at hc
  split at hc
  · simp at hc
    subst hc
    rfl
  · simp at hc
    rcases hc with hc | hc
    · subst hc; rfl
    · exact travFold_calls_GET srv thr _ c hc

theorem archiveSetup_calls_folders (srv : PipelineServer)
    (prs : List String) :
    ∀ c ∈ (archiveSetup srv prs).1, ∃ q, c.endpoint = .buildFolders q := by
  induction prs with
  | nil => intro c hc; simp [archiveSetup] at hc
  | cons pr rest ih =>
    intro c hc
    unfold archiveSetup at hc
    dsimp only at hc
    have hg : ∀ c2 ∈ (get_or_create_folder (srv.folderResp pr)
        (srv.folderPutResult pr) pr "archive").1,
        ∃ q, c2.endpoint = Endpoint.buildFolders q := by
      intro c2 hc2
      unfold get_or_create_folder at hc2
      dsimp only at hc2
      split at hc2
      · simp at hc2; subst hc2; exact ⟨pr, rfl⟩
      · split at hc2
        · simp at hc2; subst hc2; exact ⟨pr, rfl⟩
        · split at hc2 <;>
          · simp at hc2
            first
            | (rcases hc2 with hc2 | hc2 <;> (subst hc2; exact ⟨pr, rfl⟩))
            | (subst hc2; exact ⟨pr, rfl⟩)
    split at hc
    · exact hg c hc
    · simp at hc
      rcases hc with hc | hc
      · exact hg c hc
      · exact ih c hc

theorem archiveSetup_multiple_error (srv : PipelineServer)
    (prs : List String)
    (hst : ∀ p ∈ prs, (srv.folderResp p).status < 400)
    (hex : ∃ p ∈ prs, 1 < (srv.folderResp p).count) :
    (archiveSetup srv prs).2.2 = .error (.multipleFolder "archive") := by
  induction prs with
  | nil => simp at hex
  | cons pr rest ih =>
    have hst0 : (srv.folderResp pr).status < 400 := hst pr (by simp)
    unfold archiveSetup
    dsimp only
    rcases hgp : get_or_create_folder (srv.folderResp pr)
      (srv.folderPutResult pr) pr "archive" with ⟨gcs, gr⟩
    by_cases hc : 1 < (srv.folderResp pr).count
    · have hge : gr = .error (.multipleFolder "archive") := by
        have h2 : (get_or_create_folder (srv.folderResp pr)
            (srv.folderPutResult pr) pr "archive").2 =
            .error (.multipleFolder "archive") := by
          unfold get_or_create_folder
          rw [if_neg (by omega), if_pos hc]
        rw [hgp] at h2
        exact h2
      subst hge
      rfl
    · have hex2 : ∃ p ∈ rest, 1 < (srv.folderResp p).count := by
        rcases hex with ⟨p, hp, hcp⟩
        rcases List.mem_cons.mp hp with rfl | hp2
        · exact absurd hcp hc
        · exact ⟨p, hp2, hcp⟩
      have ih2 := ih (fun p hp => hst p (List.mem_cons_of_mem pr hp)) hex2
      rcases gr with e | v
      · exfalso
        have h2 : (get_or_create_folder (srv.folderResp pr)
            (srv.folderPutResult pr) pr "archive").2 = .error e := by
          rw [hgp]
        unfold get_or_create_folder at h2
        rw [if_neg (by omega), if_neg hc] at h2
        split at h2 <;> simp at h2
      · dsimp only
        exact ih2

end PipelineApp

/-- Claim C10: `get_or_create_folder` raises `AzDoMultipleFolderException`
exactly when the folder listing reports `count > 1`; with `count = 1` (and a
coherent one-element `value`) it returns the single existing folder without
issuing a create; with no existing folder it creates one with a PUT.  The
exception is not caught in `main`, so in a live run a duplicate archive
folder aborts the whole run before any disable PUT is issued. -/
theorem claim_C10_folder_setup :
    (∀ (resp : PipelineApp.FolderResp) (putResult : Option Nat)
        (pr fn : String), resp.status < 400 →
        ((PipelineApp.get_or_create_folder resp putResult pr fn).2 =
            .error (.multipleFolder fn) ↔ 1 < resp.count)) ∧
    (∀ (resp : PipelineApp.FolderResp) (putResult : Option Nat)
        (pr fn : String) (f : Nat), resp.status < 400 → resp.count = 1 →
        resp.value = [f] →
        PipelineApp.get_or_create_folder resp putResult pr fn =
          ([⟨.GET, .buildFolders pr⟩], .ok (some f))) ∧
    (∀ (resp : PipelineApp.FolderResp) (putResult : Option Nat)
        (pr fn : String), resp.status < 400 → resp.count = 0 →
        resp.value = [] →
        PipelineApp.get_or_create_folder resp putResult pr fn =
          ([⟨.GET, .buildFolders pr⟩, ⟨.PUT, .buildFolders pr⟩],
            .ok putResult)) ∧
    (∀ (srv : PipelineApp.PipelineServer) (thr : PipelineApp.PyDateTime)
        (items : List (String × Nat)),
        (PipelineApp.traversal srv thr).2.2 = .ok items →
        (∀ p ∈ (items.map Prod.fst).dedup, (srv.folderResp p).status < 400) →
        (∃ p ∈ (items.map Prod.fst).dedup, 1 < (srv.folderResp p).count) →
        (PipelineApp.pipelineMain srv false thr).2.2 =
            .error (.multipleFolder "archive") ∧
          ∀ pr pid, (⟨.PUT, .buildDefinition pr pid⟩ : Call) ∉
            (PipelineApp.pipelineMain srv false thr).1) := by
  refine ⟨?_, ?_, ?_, ?_⟩
  · intro resp putResult pr fn hs
    unfold PipelineApp.get_or_create_folder
    rw [if_neg (by omega)]
    constructor
    · intro h
      by_contra hc
      rw [if_neg hc] at h
      split at h <;> simp at h
    · intro h
      rw [if_pos h]
  · intro resp putResult pr fn f hs hc hv
    unfold PipelineApp.get_or_create_folder
    rw [if_neg (by omega), if_neg (by omega), if_neg (by simp [hv]), hv]
    rfl
  · intro resp putResult pr fn hs hc hv
    unfold PipelineApp.get_or_create_folder
    rw [if_neg (by omega), if_neg (by omega), if_pos hv]
  · intro srv thr items htrav hst hex
    have herr := PipelineApp.archiveSetup_multiple_error srv
      ((items.map Prod.fst).dedup) hst hex
    have hmut : (PipelineApp.mutationPhase srv items).2.2 =
          .error (.multipleFolder "archive") ∧
        (PipelineApp.mutationPhase srv items).1 =
          (PipelineApp.archiveSetup srv ((items.map Prod.fst).dedup)).1 := by
      unfold PipelineApp.mutationPhase
      dsimp only
      rcases ha : PipelineApp.archiveSetup srv ((items.map Prod.fst).dedup)
        with ⟨cs, ls, r⟩
      rw [ha] at herr
      simp only at herr
      subst herr
      exact ⟨rfl, rfl⟩
    rcases ht : PipelineApp.traversal srv thr with ⟨tcs, tls, tr⟩
    rw [ht] at htrav
    simp only at htrav
    subst htrav
    have hpm : PipelineApp.pipelineMain srv false thr =
        (tcs ++ (PipelineApp.mutationPhase srv items).1,
         (tls ++ [.totalInactive items.length]) ++
           (PipelineApp.mutationPhase srv items).2.1,
         (PipelineApp.mutationPhase srv items).2.2) := by
      unfold PipelineApp.pipelineMain
      rw [ht]
      rfl
    rw [hpm]
    refine ⟨hmut.1, ?_⟩
    intro pr pid hmem
    simp only [List.mem_append] at hmem
    rcases hmem with hmem | hmem
    · have hG := PipelineApp.traversal_calls_GET srv thr
      rw [ht] at hG
      have := hG _ hmem
      simp at this
    · rw [hmut.2] at hmem
      have := PipelineApp.archiveSetup_calls_folders srv
        ((items.map Prod.fst).dedup) _ hmem
      rcases this with ⟨q, hq⟩
      simp at hq

theorem claim_C10_folder_setup_witness :
    (PipelineApp.pipelineMain (exampleServer 2) false exampleThreshold).2.2 =
      .error (.multipleFolder "archive") := by
  exact (claim_C10_folder_setup.2.2.2 (exampleServer 2) exampleThreshold
    [("P", 7)] (by rfl) (by decide) (by decide)).1

namespace PipelineApp

theorem disableFold_puts (srv : PipelineServer) (items : List (String × Nat)) :
    ∀ pr pid, (⟨.PUT, .buildDefinition pr pid⟩ : Call) ∈
      (disableFold srv items).1 → (pr, pid) ∈ items := by
  induction items with
  | nil => intro pr pid hmem; simp [disableFold] at hmem
  | cons it rest ih =>
    rcases it with ⟨qr, qid⟩
    intro pr pid hmem
    have hend : ∀ c ∈ (disable_and_archive_pipeline srv qr qid).1,
        c.endpoint = Endpoint.buildDefinition qr qid := by
      intro c hcmem
      unfold disable_and_archive_pipeline at hcmem
      dsimp only at hcmem
      split at hcmem
      · simp at hcmem
        subst hcmem
        rfl
      · simp at hcmem
        rcases hcmem with h | h
        · subst h; rfl
        · subst h; rfl
    have hfromDa : (⟨Method.PUT, Endpoint.buildDefinition pr pid⟩ : Call) ∈
        (disable_and_archive_pipeline srv qr qid).1 → (pr, pid) ∈
          ((qr, qid) :: rest : List (String × Nat)) := by
      intro h
      have h2 := hend _ h
      simp only at h2
      simp at h2
      rcases h2 with ⟨rfl, rfl⟩
      exact List.mem_cons_self _ _
    unfold disableFold at hmem
    dsimp only at hmem
    rcases hda : disable_and_archive_pipeline srv qr qid with ⟨dcs, dr⟩
    rw [hda] at hmem
    dsimp only at hmem
    rcases dr with e | u
    · exact hfromDa (by rw [hda]; exact hmem)
    · rcases hrec : disableFold srv rest with ⟨cs, r⟩
      rw [hrec] at hmem
      dsimp only at hmem
      rcases List.mem_append.mp hmem with h | h
      · exact hfromDa (by rw [hda]; exact h)
      · exact List.mem_cons_of_mem _ (ih pr pid (by rw [hrec]; exact h))

theorem mutationPhase_puts (srv : PipelineServer)
    (items : List (String × Nat)) :
    ∀ pr pid, (⟨.PUT, .buildDefinition pr pid⟩ : Call) ∈
      (mutationPhase srv items).1 → (pr, pid) ∈ items := by
  intro pr pid hmem
  have hfolders := archiveSetup_calls_folders srv ((items.map Prod.fst).dedup)
  unfold mutationPhase at hmem
  dsimp only at hmem
  rcases ha : archiveSetup srv ((items.map Prod.fst).dedup)
    with ⟨acs, als, ar⟩
  have hput : (⟨Method.PUT, Endpoint.buildDefinition pr pid⟩ : Call) ∈ acs →
      False := by
    intro h
    have h2 := hfolders _ (by rw [ha]; exact h)
    rcases h2 with ⟨q, hq⟩
    simp at hq
  rw [ha] at hmem
  dsimp only at hmem
  rcases ar with e | u
  · exact absurd hmem hput
  · rcases hd : disableFold srv items with ⟨dcs, dr⟩
    rw [hd] at hmem
    dsimp only at hmem
    rcases dr with e | u <;>
    · rcases List.mem_append.mp hmem with h | h
      · exact absurd h hput
      · exact disableFold_puts srv items pr pid (by rw [hd]; exact h)

theorem inactiveFold_mem (srv : PipelineServer) (pr : String)
    (thr : PyDateTime) (ps : List Pipeline)
    (hparse : ∀ p ∈ ps, (parseCreatedDate p.createdDate).isSome = true)
    (hb : ∀ p ∈ ps, (srv.buildsResp pr p.id).status < 400) :
    ∃ l, (inactiveFold srv pr thr ps).2.2 = .ok l ∧
      ∀ q i, ((q, i) ∈ l ↔ q = pr ∧ ∃ p ∈ ps, p.id = i ∧
        ∃ c, parseCreatedDate p.createdDate = some c ∧ dtLt c thr = true ∧
          (srv.buildsResp pr p.id).body.value = []) := by
  induction ps with
  | nil =>
    refine ⟨[], rfl, ?_⟩
    intro q i
    simp
  | cons p rest ih =>
    obtain ⟨l, hl, hmem⟩ :=
      ih (fun x hx => hparse x (List.mem_cons_of_mem p hx))
        (fun x hx => hb x (List.mem_cons_of_mem p hx))
    have hp0 := hparse p (List.mem_cons_self p rest)
    rcases hpc : parseCreatedDate p.createdDate with _ | c
    · rw [hpc] at hp0
      simp at hp0
    · have hb0 := hb p (List.mem_cons_self p rest)
      rcases hrec : inactiveFold srv pr thr rest with ⟨cs, ls, r⟩
      rw [hrec] at hl
      simp only at hl
      subst hl
      by_cases hd : dtLt c thr = true
      · by_cases hbv : (srv.buildsResp pr p.id).body.value.length ≠ 0
        · refine ⟨l, ?_, ?_⟩
          · unfold inactiveFold
            dsimp only
            rw [hpc]
            dsimp only
            rw [if_pos hd, if_neg (by omega : ¬ 400 ≤ (srv.buildsResp pr p.id).status), hrec]
            dsimp only
            rw [if_pos hbv]
          · intro q i
            rw [hmem q i]
            constructor
            · rintro ⟨hq, p2, hp2, rest2⟩
              exact ⟨hq, p2, List.mem_cons_of_mem p hp2, rest2⟩
            · rintro ⟨hq, p2, hp2, hid, c2, hc2, hdlt, hempty⟩
              rcases List.mem_cons.mp hp2 with rfl | hp2
              · exfalso
                rw [hempty] at hbv
                simp at hbv
              · exact ⟨hq, p2, hp2, hid, c2, hc2, hdlt, hempty⟩
        · refine ⟨(pr, p.id) :: l, ?_, ?_⟩
          · unfold inactiveFold
            dsimp only
            rw [hpc]
            dsimp only
            rw [if_pos hd, if_neg (by omega : ¬ 400 ≤ (srv.buildsResp pr p.id).status), hrec]
            dsimp only
            rw [if_neg hbv]
          · intro q i
            simp only [List.mem_cons, Prod.mk.injEq]
            rw [hmem q i]
            constructor
            · rintro (⟨rfl, rfl⟩ | ⟨hq, p2, hp2, rest2⟩)
              · refine ⟨rfl, p, Or.inl rfl, rfl, c, hpc, hd, ?_⟩
                simpa using hbv
              · exact ⟨hq, p2, Or.inr hp2, rest2⟩
            · rintro ⟨hq, p2, hp2, hid, c2, hc2, hdlt, hempty⟩
              rcases hp2 with rfl | hp2
              · exact Or.inl ⟨hq, hid.symm⟩
              · exact Or.inr ⟨hq, p2, hp2, hid, c2, hc2, hdlt, hempty⟩
      · refine ⟨l, ?_, ?_⟩
        · unfold inactiveFold
          dsimp only
          rw [hpc]
          dsimp only
          rw [if_neg hd, hrec]
        · intro q i
          rw [hmem q i]
          constructor
          · rintro ⟨hq, p2, hp2, rest2⟩
            exact ⟨hq, p2, List.mem_cons_of_mem p hp2, rest2⟩
          · rintro ⟨hq, p2, hp2, hid, c2, hc2, hdlt, hempty⟩
            rcases List.mem_cons.mp hp2 with rfl | hp2
            · exfalso
              rw [hpc] at hc2
              injection hc2 with hc2
              subst hc2
              exact hd hdlt
            · exact ⟨hq, p2, hp2, hid, c2, hc2, hdlt, hempty⟩

end PipelineApp

/-- Claim C8: `find_inactive_pipeline` includes `(project_name, id)` in its
result exactly when the pipeline's parsed creation timestamp is older than
the threshold date (computed from the configurable `threshold_days`, default
365, before now) and the top-1 builds query for that definition returns an
empty list; a pipeline failing either condition contributes no entry, and
disable mutations are issued only for entries of the result. -/
theorem claim_C8_inclusion (srv : PipelineApp.PipelineServer)
    (projectName : String) (thr : PipelineApp.PyDateTime)
    (hst : (srv.pipelinesResp projectName).status < 400)
    (hparse : ∀ p ∈ (srv.pipelinesResp projectName).body.value,
      (PipelineApp.parseCreatedDate p.createdDate).isSome = true)
    (hb : ∀ p ∈ (srv.pipelinesResp projectName).body.value,
      (srv.buildsResp projectName p.id).status < 400) :
    PipelineApp.defaultThresholdDays = 365 ∧
    ∃ l, (PipelineApp.find_inactive_pipeline srv projectName thr).2.2 =
        .ok l ∧
      (∀ q i, ((q, i) ∈ l ↔ q = projectName ∧
        ∃ p ∈ (srv.pipelinesResp projectName).body.value, p.id = i ∧
          ∃ c, PipelineApp.parseCreatedDate p.createdDate = some c ∧
            PipelineApp.dtLt c thr = true ∧
            (srv.buildsResp projectName p.id).body.value = [])) ∧
      (∀ pr pid, (⟨.PUT, .buildDefinition pr pid⟩ : Call) ∈
        (PipelineApp.mutationPhase srv l).1 → (pr, pid) ∈ l) := by
  obtain ⟨l, hl, hmem⟩ :=
    PipelineApp.inactiveFold_mem srv projectName thr
      (srv.pipelinesResp projectName).body.value hparse hb
  refine ⟨rfl, l, ?_, hmem, PipelineApp.mutationPhase_puts srv l⟩
  unfold PipelineApp.find_inactive_pipeline
  dsimp only
  rw [if_neg (by omega)]
  rcases hrec : PipelineApp.inactiveFold srv projectName thr
    (srv.pipelinesResp projectName).body.value with ⟨cs, ls, r⟩
  rw [hrec] at hl
  simp only at hl
  subst hl
  rfl

theorem claim_C8_inclusion_witness :
    PipelineApp.defaultThresholdDays = 365 := by
  exact (claim_C8_inclusion (exampleServer 0) "P" exampleThreshold
    (by decide) (by decide) (by decide)).1

theorem filter_not_stateChanging (l : List Call) :
    (l.filter (fun c => !c.stateChanging)).filter
      (fun c => c.stateChanging) = [] := by
  induction l with
  | nil => rfl
  | cons c rest ih =>
    by_cases h : c.stateChanging
    · simp [List.filter_cons, h, ih]
    · simp only [List.filter_cons, h]
      simp only [Bool.not_false]
      simp [List.filter_cons, h, ih]

namespace CleanTeams

theorem pagedList_calls (mkCall : Call) (srv : Option String → HttpResp α) :
    ∀ (fuel : Nat) (tok : Option String),
      ∀ c ∈ (pagedList mkCall srv fuel tok).1, c = mkCall := by
  intro fuel
  induction fuel with
  | zero => intro tok c hc; simp [pagedList] at hc
  | succ f ih =>
    intro tok c hc
    unfold pagedList at hc
    dsimp only at hc
    split at hc
    · simp at hc; exact hc
    · split at hc
      · simp at hc; exact hc
      · rename_i t heqt
        split at hc
        · simp at hc; exact hc
        · rcases hrec : pagedList mkCall srv f (some t) with ⟨cs, r⟩
          rw [hrec] at hc
          have hcs : ∀ c2 ∈ cs, c2 = mkCall := fun c2 h2 =>
            ih (some t) c2 (by rw [hrec]; exact h2)
          rcases r with _ | er
          · dsimp only at hc
            rcases List.mem_cons.mp hc with rfl | hc
            · rfl
            · exact hcs c hc
          · rcases er with e | rest2 <;>
            · dsimp only at hc
              rcases List.mem_cons.mp hc with rfl | hc
              · rfl
              · exact hcs c hc

theorem processMember_dry_calls (delSrv : String → String → DeleteResp)
    (team : String) (m : Member) :
    (processMember delSrv team true m).1 =
      ((processMember delSrv team false m).1).filter
        (fun c => !c.stateChanging) := by
  unfold processMember
  split
  · rw [remove_live_calls]
    simp [remove_member_from_team, Call.stateChanging]
  · simp

theorem processMembers_dry_calls (delSrv : String → String → DeleteResp)
    (team : String) (ms : List Member) :
    (processMembers delSrv team true ms).1 =
      ((processMembers delSrv team false ms).1).filter
        (fun c => !c.stateChanging) := by
  induction ms with
  | nil => rfl
  | cons m rest ih =>
    unfold processMembers
    dsimp only
    rw [List.filter_append, ih, processMember_dry_calls]

theorem processTeam_dry (srv : CTServer) (fuel : Nat) (team : Team) :
    (processTeam srv fuel true team).1 =
      ((processTeam srv fuel false team).1).filter
        (fun c => !c.stateChanging) ∧
    (processTeam srv fuel true team).2.2 =
      (processTeam srv fuel false team).2.2 := by
  unfold processTeam
  rcases hml : get_team_members srv.membersSrv team.id fuel with ⟨mcs, mr⟩
  have hmcs : ∀ c ∈ mcs, c = (⟨.GET, .teamMemberships team.id⟩ : Call) := by
    intro c hc
    exact pagedList_calls _ _ fuel none c (by
      show c ∈ (get_team_members srv.membersSrv team.id fuel).1
      rw [hml]; exact hc)
  have hfilter : mcs.filter (fun c => !c.stateChanging) = mcs := by
    apply List.filter_eq_self.mpr
    intro c hc
    rw [hmcs c hc]
    rfl
  rcases mr with _ | er
  · exact ⟨hfilter.symm, rfl⟩
  · rcases er with e | members
    · exact ⟨hfilter.symm, rfl⟩
    · dsimp only
      refine ⟨?_, rfl⟩
      rw [List.filter_append, hfilter, processMembers_dry_calls]

theorem processTeamList_dry (srv : CTServer) (fuel : Nat) (teams : List Team) :
    (processTeamList srv fuel true teams).1 =
      ((processTeamList srv fuel false teams).1).filter
        (fun c => !c.stateChanging) ∧
    (processTeamList srv fuel true teams).2.2 =
      (processTeamList srv fuel false teams).2.2 := by
  induction teams with
  | nil => exact ⟨rfl, rfl⟩
  | cons t rest ih =>
    unfold processTeamList
    have ht := processTeam_dry srv fuel t
    rcases hs1 : processTeam srv fuel true t with ⟨cs1, ls1, r1⟩
    rcases hs0 : processTeam srv fuel false t with ⟨cs0, ls0, r0⟩
    rw [hs1, hs0] at ht
    dsimp only at ht
    obtain ⟨hcalls, hres⟩ := ht
    subst hres
    dsimp only
    rcases r1 with _ | er
    · exact ⟨hcalls, rfl⟩
    · rcases er with e | u
      · exact ⟨hcalls, rfl⟩
      · dsimp only
        refine ⟨?_, ih.2⟩
        rw [List.filter_append, hcalls, ih.1]

theorem processProject_dry (srv : CTServer) (fuel : Nat) (p : Project) :
    (processProject srv fuel true p).1 =
      ((processProject srv fuel false p).1).filter
        (fun c => !c.stateChanging) ∧
    (processProject srv fuel true p).2.2 =
      (processProject srv fuel false p).2.2 := by
  unfold processProject
  rcases htl : get_teams srv.teamsSrv p.id fuel with ⟨tcs, tr⟩
  have htcs : ∀ c ∈ tcs, c = (⟨.GET, .teams p.id⟩ : Call) := by
    intro c hc
    exact pagedList_calls _ _ fuel none c (by
      show c ∈ (get_teams srv.teamsSrv p.id fuel).1
      rw [htl]; exact hc)
  have hfilter : tcs.filter (fun c => !c.stateChanging) = tcs := by
    apply List.filter_eq_self.mpr
    intro c hc
    rw [htcs c hc]
    rfl
  rcases tr with _ | er
  · exact ⟨hfilter.symm, rfl⟩
  · rcases er with e | teams
    · exact ⟨hfilter.symm, rfl⟩
    · dsimp only
      refine ⟨?_, (processTeamList_dry srv fuel teams).2⟩
      rw [List.filter_append, hfilter, (processTeamList_dry srv fuel teams).1]

theorem processProjectList_dry (srv : CTServer) (fuel : Nat)
    (projects : List Project) :
    (processProjectList srv fuel true projects).1 =
      ((processProjectList srv fuel false projects).1).filter
        (fun c => !c.stateChanging) ∧
    (processProjectList srv fuel true projects).2.2 =
      (processProjectList srv fuel false projects).2.2 := by
  induction projects with
  | nil => exact ⟨rfl, rfl⟩
  | cons p rest ih =>
    unfold processProjectList
    have hp := processProject_dry srv fuel p
    rcases hs1 : processProject srv fuel true p with ⟨cs1, ls1, r1⟩
    rcases hs0 : processProject srv fuel false p with ⟨cs0, ls0, r0⟩
    rw [hs1, hs0] at hp
    dsimp only at hp
    obtain ⟨hcalls, hres⟩ := hp
    subst hres
    dsimp only
    rcases r1 with _ | er
    · exact ⟨hcalls, rfl⟩
    · rcases er with e | u
      · exact ⟨hcalls, rfl⟩
      · dsimp only
        refine ⟨?_, ih.2⟩
        rw [List.filter_append, hcalls, ih.1]

theorem cleanTeamsRun_dry (srv : CTServer) (fuel : Nat) :
    (cleanTeamsRun srv fuel true).1 =
      ((cleanTeamsRun srv fuel false).1).filter
        (fun c => !c.stateChanging) := by
  unfold cleanTeamsRun
  rcases hpl : get_projects srv.projectsSrv fuel with ⟨pcs, presult⟩
  have hpcs : ∀ c ∈ pcs, c = (⟨.GET, .projects⟩ : Call) := by
    intro c hc
    exact pagedList_calls _ _ fuel none c (by
      show c ∈ (get_projects srv.projectsSrv fuel).1
      rw [hpl]; exact hc)
  have hfilter : pcs.filter (fun c => !c.stateChanging) = pcs := by
    apply List.filter_eq_self.mpr
    intro c hc
    rw [hpcs c hc]
    rfl
  rcases presult with _ | er
  · exact hfilter.symm
  · rcases er with e | projects
    · exact hfilter.symm
    · dsimp only
      rw [List.filter_append, hfilter,
        (processProjectList_dry srv fuel projects).1]

end CleanTeams

namespace PipelineApp

theorem pipelineMain_dry_calls (srv : PipelineServer) (thr : PyDateTime) :
    (pipelineMain srv true thr).1 = (traversal srv thr).1 := by
  unfold pipelineMain
  rcases ht : traversal srv thr with ⟨tcs, tls, tr⟩
  rcases tr with e | items
  · rfl
  · rfl

theorem pipelineMain_live_extends (srv : PipelineServer) (thr : PyDateTime) :
    ∃ extra, (pipelineMain srv false thr).1 =
      (pipelineMain srv true thr).1 ++ extra := by
  unfold pipelineMain
  rcases ht : traversal srv thr with ⟨tcs, tls, tr⟩
  rcases tr with e | items
  · exact ⟨[], by simp⟩
  · exact ⟨(mutationPhase srv items).1, rfl⟩

end PipelineApp

namespace ReleaseAudit

theorem process_definition_dry_calls (fetchSrv : Nat → Except String FullDef)
    (updSrv : Nat → Except String Unit) (pr : String) (d : Nat)
    (target : String) :
    ∀ c ∈ (process_definition fetchSrv updSrv pr d target true).1,
      c.method = .GET := by
  intro c hc
  unfold process_definition at hc
  dsimp only at hc
  rcases hf : fetchSrv d with e | fd
  · rw [hf] at hc
    dsimp only at hc
    simp at hc
    subst hc
    rfl
  · rw [hf] at hc
    dsimp only at hc
    have hc2 : c ∈
        [(⟨Method.GET, Endpoint.releaseDefinition pr d⟩ : Call)] := by
      by_cases hu : (enforceEnvs target fd.name pr fd.environments).2.1 = true
      · rw [if_pos hu] at hc
        simpa [update_release_definition] using hc
      · rw [if_neg hu] at hc
        exact hc
    simp at hc2
    subst hc2
    rfl

theorem processBatch_dry_calls (fetchSrv : Nat → Except String FullDef)
    (updSrv : Nat → Except String Unit) (pr target : String)
    (defs : List Nat) :
    ∀ c ∈ (processBatch fetchSrv updSrv pr target true defs).1,
      c.method = .GET := by
  induction defs with
  | nil => intro c hc; simp [processBatch] at hc
  | cons d rest ih =>
    intro c hc
    unfold processBatch at hc
    dsimp only at hc
    rcases List.mem_append.mp hc with h | h
    · exact process_definition_dry_calls fetchSrv updSrv pr d target c h
    · exact ih c h

end ReleaseAudit

/-- Claim C2 as amended: a dry run issues zero state-changing calls in all
three scripts, and the read-only traversal is exactly the live run's — the
cleanup script's dry call trace is precisely the live trace with the DELETEs
removed, and the pipeline script's live trace extends the dry trace, which is
exactly the traversal.  In the cleanup and release scripts every included
item's mutation step logs the would-be action and returns without a network
call; the pipeline script instead skips its whole mutation phase, so no
per-item would-act line is logged there. -/
theorem claim_C2_dry_run :
    (∀ (srv : CleanTeams.CTServer) (fuel : Nat),
        (CleanTeams.cleanTeamsRun srv fuel true).1 =
          ((CleanTeams.cleanTeamsRun srv fuel false).1).filter
            (fun c => !c.stateChanging)) ∧
    (∀ (srv : CleanTeams.CTServer) (fuel : Nat),
        ((CleanTeams.cleanTeamsRun srv fuel true).1).filter
          (fun c => c.stateChanging) = []) ∧
    (∀ (srv : PipelineApp.PipelineServer) (thr : PipelineApp.PyDateTime),
        (PipelineApp.pipelineMain srv true thr).1 =
          (PipelineApp.traversal srv thr).1 ∧
        ((PipelineApp.pipelineMain srv true thr).1).filter
          (fun c => c.stateChanging) = [] ∧
        ∃ extra, (PipelineApp.pipelineMain srv false thr).1 =
          (PipelineApp.pipelineMain srv true thr).1 ++ extra) ∧
    (∀ (delSrv : String → String → CleanTeams.DeleteResp) (team : String)
        (m : CleanTeams.Member),
        pyStartsWith m.memberDescriptor "aad." = true →
        CleanTeams.processMember delSrv team true m =
          ([], [.removingUser m.memberDescriptor,
                .wouldAct m.memberDescriptor])) ∧
    (∀ (updSrv : Nat → Except String Unit) (pr : String)
        (d : ReleaseAudit.FullDef),
        ReleaseAudit.update_release_definition updSrv true pr d =
          ([], [.wouldAct d.name], none)) ∧
    (∀ (fetchSrv : Nat → Except String ReleaseAudit.FullDef)
        (updSrv : Nat → Except String Unit) (pr target : String)
        (defs : List Nat),
        ((ReleaseAudit.processBatch fetchSrv updSrv pr target true
          defs).1).filter (fun c => c.stateChanging) = []) := by
  refine ⟨?_, ?_, ?_, ?_, ?_, ?_⟩
  · intro srv fuel
    exact CleanTeams.cleanTeamsRun_dry srv fuel
  · intro srv fuel
    rw [CleanTeams.cleanTeamsRun_dry srv fuel]
    exact filter_not_stateChanging _
  · intro srv thr
    refine ⟨PipelineApp.pipelineMain_dry_calls srv thr, ?_,
      PipelineApp.pipelineMain_live_extends srv thr⟩
    rw [PipelineApp.pipelineMain_dry_calls srv thr]
    rw [List.filter_eq_nil_iff]
    intro c hc
    have := PipelineApp.traversal_calls_GET srv thr c hc
    rw [Call.stateChanging, this]
    simp
  · intro delSrv team m hsw
    simp [CleanTeams.processMember, CleanTeams.remove_member_from_team, hsw]
  · intro updSrv pr d
    rfl
  · intro fetchSrv updSrv pr target defs
    rw [List.filter_eq_nil_iff]
    intro c hc
    have := ReleaseAudit.processBatch_dry_calls fetchSrv updSrv pr target
      defs c hc
    rw [Call.stateChanging, this]
    simp

theorem claim_C2_dry_run_witness :
    CleanTeams.processMember (fun _ _ => ⟨204, ""⟩) "vsts.admins" true
        ⟨"aad.bob"⟩ =
      ([], [.removingUser "aad.bob", .wouldAct "aad.bob"]) := by
  exact claim_C2_dry_run.2.2.2.1 (fun _ _ => ⟨204, ""⟩) "vsts.admins"
    ⟨"aad.bob"⟩ (by decide)

/-- Claim C2 counterexample: a dry run of the pipeline script over a server
with one included (inactive) pipeline completes without any per-item
would-act log line — the mutation phase is skipped wholesale, so the claim's
"every included item's mutation step logs the would-be action" fails for
`app/main.py`. -/
theorem claim_C2_counterexample :
    (PipelineApp.traversal (exampleServer 0) exampleThreshold).2.2 =
      .ok [("P", 7)] ∧
    (PipelineApp.pipelineMain (exampleServer 0) true exampleThreshold).2.2 =
      .ok () ∧
    ((PipelineApp.pipelineMain (exampleServer 0) true
        exampleThreshold).2.1.any LogEvent.isWouldAct) = false := by
  exact ⟨rfl, rfl, rfl⟩

theorem claim_C7_timestamp_tolerance_witness :
    PipelineApp.parseCreatedDate
        (PipelineApp.renderDT ⟨2020, 1, 2, 3, 4, 5⟩ ++ ".1234567".data) =
      some ⟨2020, 1, 2, 3, 4, 5⟩ := by
  exact (claim_C7_timestamp_tolerance ⟨2020, 1, 2, 3, 4, 5⟩
    exampleThreshold 7 ".1234567".data (by decide) (by decide) (by decide)).1

end AzDo
